import Mathlib

/-!
Verification development for the AttractorBuilder numerical core.

The Python source (src/__init__.py) is shallowly embedded here:

* Blender `mathutils.Vector` 3-vectors become the `Vec3` structure over `ℚ`.
  Machine floats are modelled by exact rationals; the two operations whose
  float results are not rational — `math.sqrt` (used by `Vector.length`) and
  the non-integer case of `**` (used by the `(tolerance / error) ** 0.2`
  step-size controller) — are threaded through as explicit function
  parameters (`sq`, `rp`).  `ratSqrt` is the reference instantiation of `sq`:
  it is exact on perfect squares (in particular `ratSqrt 0 = 0` and
  `ratSqrt (e * e) = |e|`), which is all the concrete runs below exercise.
  Detection of non-finite floats (`math.isnan c or math.isinf c`) is likewise
  abstracted as a predicate parameter `isBad : ℚ → Bool`, since exact
  rationals have no NaN/Infinity values.
* The restricted Python AST accepted by `_eval_ast` becomes the inductive
  `PyAst`; every node type outside `_ALLOWED_NODES` is collapsed into the
  constructor `PyAst.disallowed` (carrying the node-kind name), and operator
  tokens outside the dictionaries in `_eval_ast` become `BOp.otherB` /
  `UOp.otherU`.  Python exceptions raised during evaluation become the
  `Except EvalErr` monad.  The bodies of the whitelisted `math` functions and
  of non-integer `**` live outside the repository; they are abstracted as the
  `FloatSem` parameter.
* The generation loops of `ATTRACTOR_OT_build.execute` become `fixedGen`
  (a structurally recursive rendering of `for i in range(steps + burn_in)`)
  and `adaptiveGen` (the `while pts_gen < steps` loop, made total with an
  explicit fuel argument: running out of fuel yields `Except.ok none`, so a
  run that never settles is one that returns `ok none` for every fuel).
  List appends inside the loops are rendered as conses on return, which
  builds the same lists in the same order.
-/

namespace AttractorBuilder

/-! ## Points (mathutils.Vector restricted to 3 components) -/

/-- A 3-component vector, modelling `mathutils.Vector` with exact rational
coordinates in place of floats. -/
@[ext] structure Vec3 where
  x : ℚ
  y : ℚ
  z : ℚ
deriving DecidableEq

instance : Add Vec3 := ⟨fun a b => ⟨a.x + b.x, a.y + b.y, a.z + b.z⟩⟩
instance : Sub Vec3 := ⟨fun a b => ⟨a.x - b.x, a.y - b.y, a.z - b.z⟩⟩
instance : Neg Vec3 := ⟨fun a => ⟨-a.x, -a.y, -a.z⟩⟩
instance : SMul ℚ Vec3 := ⟨fun q a => ⟨q * a.x, q * a.y, q * a.z⟩⟩
instance : Zero Vec3 := ⟨⟨0, 0, 0⟩⟩

@[simp] theorem Vec3.add_x (a b : Vec3) : (a + b).x = a.x + b.x := rfl
@[simp] theorem Vec3.add_y (a b : Vec3) : (a + b).y = a.y + b.y := rfl
@[simp] theorem Vec3.add_z (a b : Vec3) : (a + b).z = a.z + b.z := rfl
@[simp] theorem Vec3.sub_x (a b : Vec3) : (a - b).x = a.x - b.x := rfl
@[simp] theorem Vec3.sub_y (a b : Vec3) : (a - b).y = a.y - b.y := rfl
@[simp] theorem Vec3.sub_z (a b : Vec3) : (a - b).z = a.z - b.z := rfl
@[simp] theorem Vec3.smul_x (q : ℚ) (a : Vec3) : (q • a).x = q * a.x := rfl
@[simp] theorem Vec3.smul_y (q : ℚ) (a : Vec3) : (q • a).y = q * a.y := rfl
@[simp] theorem Vec3.smul_z (q : ℚ) (a : Vec3) : (q • a).z = q * a.z := rfl
@[simp] theorem Vec3.zero_x : (0 : Vec3).x = 0 := rfl
@[simp] theorem Vec3.zero_y : (0 : Vec3).y = 0 := rfl
@[simp] theorem Vec3.zero_z : (0 : Vec3).z = 0 := rfl

@[simp] theorem Vec3.mk_add_mk (a b c d e f : ℚ) :
    (⟨a, b, c⟩ : Vec3) + ⟨d, e, f⟩ = ⟨a + d, b + e, c + f⟩ := rfl
@[simp] theorem Vec3.mk_sub_mk (a b c d e f : ℚ) :
    (⟨a, b, c⟩ : Vec3) - ⟨d, e, f⟩ = ⟨a - d, b - e, c - f⟩ := rfl
@[simp] theorem Vec3.smul_mk (q a b c : ℚ) :
    q • (⟨a, b, c⟩ : Vec3) = ⟨q * a, q * b, q * c⟩ := rfl

/-- Dot product of two vectors, as in `mathutils.Vector.dot`. -/
def Vec3.dot (a b : Vec3) : ℚ := a.x * b.x + a.y * b.y + a.z * b.z

/-- `Vector.length` — the Euclidean norm — with the square root supplied as
the parameter `sq` (floats compute it with `math.sqrt`). -/
def vlen (sq : ℚ → ℚ) (v : Vec3) : ℚ := sq (v.dot v)

/-- Reference instantiation of the square-root parameter: exact on rationals
whose numerator and denominator are perfect squares (which covers every
square-root evaluation appearing in the concrete runs below), and an
unspecified junk value elsewhere. -/
def ratSqrt (q : ℚ) : ℚ := Rat.sqrt q

/-- Reference instantiation of the float `**` parameter used by the adaptive
step-size controller: exact for integral exponents, an unspecified junk
value (0) for fractional ones such as `0.2`. -/
def ratRpow (a b : ℚ) : ℚ :=
  if b.den = 1 then a ^ b.num else 0

@[simp] theorem Vec3.smul_zero' (q : ℚ) : q • (0 : Vec3) = 0 := by
  ext <;> simp

@[simp] theorem Vec3.add_zero' (a : Vec3) : a + 0 = a := by
  ext <;> simp

@[simp] theorem Vec3.zero_add' (a : Vec3) : (0 : Vec3) + a = a := by
  ext <;> simp

@[simp] theorem Vec3.sub_self' (a : Vec3) : a - a = 0 := by
  ext <;> simp

@[simp] theorem Vec3.dot_zero (v : Vec3) : Vec3.dot 0 v = 0 := by
  simp [Vec3.dot]

theorem Vec3.dot_neg_neg (v w : Vec3) : Vec3.dot (v - w) (v - w) = Vec3.dot (w - v) (w - v) := by
  simp only [Vec3.dot, Vec3.sub_x, Vec3.sub_y, Vec3.sub_z]; ring

theorem ratSqrt_mul_self (q : ℚ) : ratSqrt (q * q) = |q| := Rat.sqrt_eq q

@[simp] theorem ratSqrt_zero : ratSqrt 0 = 0 := by
  have h := ratSqrt_mul_self 0
  simpa using h

/-! ## Safe expression evaluation (`_eval_ast` and friends) -/

/-- Binary operator token of an `ast.BinOp` node.  `otherB` stands for any
operator outside the dictionary in `_eval_ast` (e.g. `ast.FloorDiv`,
`ast.BitOr`): for those, `dict.get` yields `None` and calling it raises a
`TypeError` after both operands were evaluated. -/
inductive BOp where
  | add | sub | mult | div | pow | mod | otherB
deriving DecidableEq

/-- Unary operator token of an `ast.UnaryOp` node; `otherU` covers e.g.
`ast.Not`, which is absent from the dictionary and raises `TypeError`. -/
inductive UOp where
  | uadd | usub | otherU
deriving DecidableEq

/-- The restricted Python expression AST walked by `_eval_ast`.  Node types
outside `_ALLOWED_NODES` (`ast.Attribute`, `ast.Subscript`, `ast.NamedExpr`,
comprehensions, `ast.Lambda`, `ast.Compare`, ...) are collapsed into
`disallowed`, carrying the node-kind name. -/
inductive PyAst where
  | expression (body : PyAst)
  | constant (v : ℚ)
  | name (id : String)
  | unaryOp (op : UOp) (operand : PyAst)
  | binOp (left : PyAst) (op : BOp) (right : PyAst)
  | call (func : PyAst) (args : List PyAst)
  | disallowed (kind : String)

/-- The exceptions that can escape `_eval_ast`: the three `_UnsafeNodeError`
messages, `ZeroDivisionError`, `TypeError` (calling the `None` an absent
operator lookup returns), and a catch-all for errors raised inside the host
`math` library (`OverflowError`, domain `ValueError`, arity `TypeError`). -/
inductive EvalErr where
  | disallowedElement
  | unknownSymbol (id : String)
  | unsupportedOp
  | zeroDivision
  | typeErr
  | hostError
deriving DecidableEq

/-- `_ALLOWED_FUNCS` — the transcendental whitelist.  Every listed name
exists in `math`, so `_MATH_FUNCS_MAP` has exactly these keys. -/
def _ALLOWED_FUNCS : List String :=
  ["sin", "cos", "tan", "asin", "acos", "atan", "sinh", "cosh", "tanh",
   "exp", "log", "sqrt", "pow", "fabs"]

/-- Semantics of the float operations that live outside the repository: the
bodies of the whitelisted `math` functions, and `**` with a non-integral
exponent (whose float value is not rational). -/
structure FloatSem where
  powNonInt : ℚ → ℚ → Except EvalErr ℚ
  callFn : String → List ℚ → Except EvalErr ℚ

/-- Python float `%`: `a % b = a - b * floor(a / b)` (sign of the divisor);
`b == 0` raises `ZeroDivisionError`. -/
def pyMod (a b : ℚ) : ℚ := a - b * (⌊a / b⌋ : ℚ)

/-- Python float `**` (`operator.pow`): exact for integral exponents with
`0.0 ** negative` raising `ZeroDivisionError`; delegated to the abstract
`FloatSem` otherwise. -/
def pyPow (fs : FloatSem) (a b : ℚ) : Except EvalErr ℚ :=
  if b.den = 1 then
    if a = 0 ∧ b.num < 0 then .error .zeroDivision
    else .ok (a ^ b.num)
  else fs.powNonInt a b

mutual

/-- `_eval_ast(node, env)`: whitelist-enforcing evaluation of one node.
The environment is the dict `{"x": x, "y": y, "z": z, **params}` passed as a
lookup function. -/
def _eval_ast (fs : FloatSem) (env : String → Option ℚ) : PyAst → Except EvalErr ℚ
  | .expression body => _eval_ast fs env body
  | .constant v => .ok v
  | .name id =>
    match env id with
    | some v => .ok v
    | none => .error (.unknownSymbol id)
  | .unaryOp op operand => do
    let v ← _eval_ast fs env operand
    match op with
    | .uadd => .ok v
    | .usub => .ok (-v)
    | .otherU => .error .typeErr
  | .binOp left op right => do
    let l ← _eval_ast fs env left
    let r ← _eval_ast fs env right
    match op with
    | .add => .ok (l + r)
    | .sub => .ok (l - r)
    | .mult => .ok (l * r)
    | .div => if r = 0 then .error .zeroDivision else .ok (l / r)
    | .pow => pyPow fs l r
    | .mod => if r = 0 then .error .zeroDivision else .ok (pyMod l r)
    | .otherB => .error .typeErr
  | .call func args =>
    match func with
    | .name id =>
      if id ∈ _ALLOWED_FUNCS then do
        let vs ← _eval_ast_args fs env args
        fs.callFn id vs
      else .error .unsupportedOp
    | _ => .error .unsupportedOp
  | .disallowed _ => .error .disallowedElement

/-- Left-to-right evaluation of a call's argument list
(`[_eval_ast(a, env) for a in node.args]`). -/
def _eval_ast_args (fs : FloatSem) (env : String → Option ℚ) : List PyAst → Except EvalErr (List ℚ)
  | [] => .ok []
  | a :: rest => do
    let v ← _eval_ast fs env a
    let vs ← _eval_ast_args fs env rest
    .ok (v :: vs)

end

/-- The outcome of `ast.parse(expr_src, mode="eval")`: `parseError` models
the `SyntaxError` Python raises for a string that is not an expression. -/
inductive CompileErr where
  | parseError
deriving DecidableEq

/-- `_compile_rhs_expression`: parse, then return the evaluation closure.
The input is the parse outcome (`none` = `SyntaxError`); note that the
function performs no walk of the parsed tree — the closure it returns simply
carries the tree to evaluation time. -/
def _compile_rhs_expression (parsed : Option PyAst) : Except CompileErr PyAst :=
  match parsed with
  | none => .error .parseError
  | some t => .ok t

/-- A parameter set: insertion-ordered (name, value) pairs. -/
abbrev Params := List (String × ℚ)

/-- The environment `{"x": x, "y": y, "z": z, **params}` built by the closure
returned from `_compile_rhs_expression`; a parameter entry shadows the
coordinate names, exactly as the later dict entries win in Python. -/
def mkEnv (xv yv zv : ℚ) (params : Params) (id : String) : Option ℚ :=
  match List.lookup id params with
  | some v => some v
  | none =>
    if id = "x" then some xv
    else if id = "y" then some yv
    else if id = "z" then some zv
    else none

/-- Running the closure returned by `_compile_rhs_expression` on a concrete
`(x, y, z, params)` environment. -/
def runCompiled (fs : FloatSem) (t : PyAst) (xv yv zv : ℚ) (params : Params) : Except EvalErr ℚ :=
  _eval_ast fs (mkEnv xv yv zv params) t

/-- The vector function produced by `build_rhs_function`: evaluate the three
compiled axis expressions at the same `(x, y, z, params)` environment and
assemble the `Vector`. -/
def rhsFromTrees (fs : FloatSem) (tx ty tz : PyAst) (p : Vec3) (params : Params) :
    Except EvalErr Vec3 := do
  let a ← runCompiled fs tx p.x p.y p.z params
  let b ← runCompiled fs ty p.x p.y p.z params
  let c ← runCompiled fs tz p.x p.y p.z params
  .ok ⟨a, b, c⟩

/-- `build_rhs_function(dx_src, dy_src, dz_src)`: compile each axis in order,
propagating the first failure, then close over the three trees. -/
def build_rhs_function (fs : FloatSem) (dx dy dz : Option PyAst) :
    Except CompileErr (Vec3 → Params → Except EvalErr Vec3) := do
  let tx ← _compile_rhs_expression dx
  let ty ← _compile_rhs_expression dy
  let tz ← _compile_rhs_expression dz
  .ok (rhsFromTrees fs tx ty tz)

/-! ## Integration steppers -/

/-- The type of the `rhs_func` argument every stepper receives: it may raise
(the compiled evaluator propagates its exceptions through the stepper). -/
abbrev RhsFn := Vec3 → Params → Except EvalErr Vec3

/-- Lift an exact (never-raising) vector field to an `RhsFn`. -/
def pureRhs (f : Vec3 → Params → Vec3) : RhsFn := fun p params => .ok (f p params)

/-- `step_euler`: `p + rhs_func(p, params) * dt`. -/
def step_euler (rhs : RhsFn) (p : Vec3) (params : Params) (dt : ℚ) : Except EvalErr Vec3 := do
  let k ← rhs p params
  .ok (p + dt • k)

/-- `step_heun`: predictor–corrector; note the source evaluates
`rhs_func(p, params)` twice, which the model mirrors. -/
def step_heun (rhs : RhsFn) (p : Vec3) (params : Params) (dt : ℚ) : Except EvalErr Vec3 := do
  let k0 ← rhs p params
  let p_pred := p + dt • k0
  let k1 ← rhs p params
  let k2 ← rhs p_pred params
  let avg_slope := (1/2 : ℚ) • (k1 + k2)
  .ok (p + dt • avg_slope)

/-- `step_rk4`: classical four-stage Runge–Kutta. -/
def step_rk4 (rhs : RhsFn) (p : Vec3) (params : Params) (dt : ℚ) : Except EvalErr Vec3 := do
  let k1 ← rhs p params
  let k2 ← rhs (p + (1/2 * dt) • k1) params
  let k3 ← rhs (p + (1/2 * dt) • k2) params
  let k4 ← rhs (p + dt • k3) params
  .ok (p + (dt / 6) • (k1 + (2 : ℚ) • k2 + (2 : ℚ) • k3 + k4))

/-- `step_rkf45`: adaptive Runge–Kutta–Fehlberg 4(5).  `sq` is the
`math.sqrt` behind `Vector.length`, `rp` the float `**` of the controller. -/
def step_rkf45 (sq : ℚ → ℚ) (rp : ℚ → ℚ → ℚ) (rhs : RhsFn) (p : Vec3) (params : Params)
    (current_dt tolerance : ℚ) : Except EvalErr (Vec3 × ℚ × Bool) := do
  let k1 ← rhs p params
  let k2 ← rhs (p + (1/4 * current_dt) • k1) params
  let k3 ← rhs (p + current_dt • ((3/32 : ℚ) • k1 + (9/32 : ℚ) • k2)) params
  let k4 ← rhs (p + current_dt •
    ((1932/2197 : ℚ) • k1 + (-7200/2197 : ℚ) • k2 + (7296/2197 : ℚ) • k3)) params
  let k5 ← rhs (p + current_dt •
    ((439/216 : ℚ) • k1 + (-8 : ℚ) • k2 + (3680/513 : ℚ) • k3 + (-845/4104 : ℚ) • k4)) params
  let k6 ← rhs (p + current_dt •
    ((-8/27 : ℚ) • k1 + (2 : ℚ) • k2 + (-3544/2565 : ℚ) • k3 + (1859/4104 : ℚ) • k4 +
      (-11/40 : ℚ) • k5)) params
  let y4 := p + current_dt •
    ((25/216 : ℚ) • k1 + (1408/2565 : ℚ) • k3 + (2197/4104 : ℚ) • k4 + (-1/5 : ℚ) • k5)
  let y5 := p + current_dt •
    ((16/135 : ℚ) • k1 + (6656/12825 : ℚ) • k3 + (28561/56430 : ℚ) • k4 + (-9/50 : ℚ) • k5 +
      (2/55 : ℚ) • k6)
  let error0 := vlen sq (y4 - y5)
  let error := if error0 ≤ 1/10^20 then 1/10^20 else error0
  let optimal_dt := 9/10 * current_dt * rp (tolerance / error) (1/5)
  if error ≤ tolerance then .ok (y5, optimal_dt, true)
  else .ok (p, optimal_dt, false)

/-- `step_dp5`: adaptive Dormand–Prince 5(4).  The error vector is
`current_dt * sum((b - bs) * k)` over the seven stages, as in the source. -/
def step_dp5 (sq : ℚ → ℚ) (rp : ℚ → ℚ → ℚ) (rhs : RhsFn) (p : Vec3) (params : Params)
    (current_dt tolerance : ℚ) : Except EvalErr (Vec3 × ℚ × Bool) := do
  let k1 ← rhs p params
  let k2 ← rhs (p + (current_dt * (1/5)) • k1) params
  let k3 ← rhs (p + current_dt • ((3/40 : ℚ) • k1 + (9/40 : ℚ) • k2)) params
  let k4 ← rhs (p + current_dt •
    ((44/45 : ℚ) • k1 + (-56/15 : ℚ) • k2 + (32/9 : ℚ) • k3)) params
  let k5 ← rhs (p + current_dt •
    ((19372/6561 : ℚ) • k1 + (-25360/2187 : ℚ) • k2 + (64448/6561 : ℚ) • k3 +
      (-212/729 : ℚ) • k4)) params
  let k6 ← rhs (p + current_dt •
    ((9017/3168 : ℚ) • k1 + (-355/33 : ℚ) • k2 + (46732/5247 : ℚ) • k3 + (49/176 : ℚ) • k4 +
      (-5103/18656 : ℚ) • k5)) params
  let y5 := p + current_dt •
    ((35/384 : ℚ) • k1 + (0 : ℚ) • k2 + (500/1113 : ℚ) • k3 + (125/192 : ℚ) • k4 +
      (-2187/6784 : ℚ) • k5 + (11/84 : ℚ) • k6)
  let k7 ← rhs y5 params
  let error_vec := current_dt •
    ((35/384 - 5179/57600 : ℚ) • k1 + (0 - 0 : ℚ) • k2 + (500/1113 - 7571/16695 : ℚ) • k3 +
      (125/192 - 393/640 : ℚ) • k4 + (-2187/6784 - -92097/339200 : ℚ) • k5 +
      (11/84 - 187/2100 : ℚ) • k6 + (0 - 1/40 : ℚ) • k7)
  let error0 := vlen sq error_vec
  let error := if error0 ≤ 1/10^20 then 1/10^20 else error0
  let optimal_dt := 9/10 * current_dt * rp (tolerance / error) (1/5)
  if error ≤ tolerance then .ok (y5, optimal_dt, true)
  else .ok (p, optimal_dt, false)

/-! ## Trajectory generation (`ATTRACTOR_OT_build.execute`) -/

/-- The exceptions the generation loops can raise: the two
`ValueError("Numerical instability ...")` sites (the fixed-mode message
carries the loop index `i`, the adaptive-mode one carries no index), and any
exception propagating out of `rhs_func`. -/
inductive GenErr where
  | instability (index : Option ℕ)
  | fieldError (e : EvalErr)
deriving DecidableEq

/-- `any(math.isnan(c) or math.isinf(c) for c in p)`, with the float
special-value test abstracted as `isBad`. -/
def badVec (isBad : ℚ → Bool) (p : Vec3) : Bool :=
  isBad p.x || isBad p.y || isBad p.z

/-- The raw trajectory state produced by a completed generation run:
`_raw_points`, `_raw_dts`, and the scaled `points` list. -/
structure Traj where
  raw : List Vec3
  rawDts : List ℚ
  pts : List Vec3
deriving DecidableEq

/-- The fixed-step method dispatch
`{"RK4": step_rk4, "HEUN": step_heun}.get(P.method, step_euler)`. -/
inductive FixedMethod where
  | EULER | HEUN | RK4
deriving DecidableEq

/-- Fixed-step method selection; any method other than `RK4`/`HEUN` falls
back to `step_euler` via `dict.get`'s default. -/
def pickFixed : FixedMethod → RhsFn → Vec3 → Params → ℚ → Except EvalErr Vec3
  | .RK4 => step_rk4
  | .HEUN => step_heun
  | .EULER => step_euler

/-- One fixed-mode advance, with evaluator exceptions wrapped into the
generation error type. -/
def fixedStep1 (m : FixedMethod) (rhs : RhsFn) (params : Params) (dt : ℚ) (p : Vec3) :
    Except GenErr Vec3 :=
  match pickFixed m rhs p params dt with
  | .error e => .error (.fieldError e)
  | .ok q => .ok q

/-- The body of `for i in range(P.steps + P.burn_in)` in fixed mode:
advance, check instability (raising with the loop index `i`), and record
once `i >= burn_in`.  The appends of the imperative loop are rendered as
conses on return, producing the same lists. -/
def fixedGo (step1 : Vec3 → Except GenErr Vec3) (isBad : ℚ → Bool) (dt scale : ℚ)
    (burn_in : ℕ) : ℕ → ℕ → Vec3 → Except GenErr (List Vec3 × List ℚ × List Vec3)
  | 0, _, _ => .ok ([], [], [])
  | n + 1, i, p => do
    let p' ← step1 p
    if badVec isBad p' then .error (.instability (some i))
    else do
      let (raw, dts, pts) ← fixedGo step1 isBad dt scale burn_in n (i + 1) p'
      if burn_in ≤ i then .ok (p' :: raw, dt :: dts, (scale • p') :: pts)
      else .ok (raw, dts, pts)

/-- Fixed-mode generation: `_raw_points` starts as `[p0]` and `_raw_dts` as
`[0.0]` before the loop; the loop then runs `steps + burn_in` iterations. -/
def fixedGen (m : FixedMethod) (rhs : RhsFn) (params : Params) (isBad : ℚ → Bool)
    (dt scale : ℚ) (steps burn_in : ℕ) (p0 : Vec3) : Except GenErr Traj := do
  let (raw, dts, pts) ← fixedGo (fixedStep1 m rhs params dt) isBad dt scale burn_in
    (steps + burn_in) 0 p0
  .ok ⟨p0 :: raw, 0 :: dts, pts⟩

/-- The type of an adaptive stepper as the loop consumes it
(`step_dp5 if P.adaptive_method == 'DP5' else step_rkf45`). -/
abbrev AdStepper := RhsFn → Vec3 → Params → ℚ → ℚ → Except EvalErr (Vec3 × ℚ × Bool)

/-- The adaptive `while pts_gen < P.steps` loop, made total by fuel
(`Except.ok none` = fuel exhausted, i.e. the source loop has not settled
within that many iterations).  Each iteration clamps the working `dt` into
`[min_dt, max_dt]`, attempts a step, and on acceptance checks instability
(raising without an index) and either burns or records; the suggested
`next_dt` is absorbed in every case. -/
def adaptiveGo (stepper : AdStepper) (rhs : RhsFn) (params : Params) (isBad : ℚ → Bool)
    (tolerance min_dt max_dt scale : ℚ) (burn_in steps : ℕ) :
    ℕ → ℕ → ℕ → ℚ → Vec3 → Except GenErr (Option (List Vec3 × List ℚ × List Vec3))
  | 0, _, _, _, _ => .ok none
  | fuel + 1, ptsGen, burnDone, dt, p =>
    if steps ≤ ptsGen then .ok (some ([], [], []))
    else
      let d := max min_dt (min max_dt dt)
      match stepper rhs p params d tolerance with
      | .error e => .error (.fieldError e)
      | .ok (p_next, next_dt, accepted) =>
        if accepted then
          if badVec isBad p_next then .error (.instability none)
          else if burn_in ≤ burnDone then
            match adaptiveGo stepper rhs params isBad tolerance min_dt max_dt scale burn_in
              steps fuel (ptsGen + 1) burnDone next_dt p_next with
            | .error e => .error e
            | .ok none => .ok none
            | .ok (some (raw, dts, pts)) =>
              .ok (some (p_next :: raw, d :: dts, (scale • p_next) :: pts))
          else adaptiveGo stepper rhs params isBad tolerance min_dt max_dt scale burn_in
            steps fuel ptsGen (burnDone + 1) next_dt p_next
        else adaptiveGo stepper rhs params isBad tolerance min_dt max_dt scale burn_in
          steps fuel ptsGen burnDone next_dt p

/-- Adaptive-mode generation: initial working `dt` is `P.dt`, counters start
at zero, and `_raw_points`/`_raw_dts` start as `[p0]`/`[0.0]`. -/
def adaptiveGen (stepper : AdStepper) (rhs : RhsFn) (params : Params) (isBad : ℚ → Bool)
    (tolerance min_dt max_dt scale dt0 : ℚ) (burn_in steps : ℕ) (p0 : Vec3) (fuel : ℕ) :
    Except GenErr (Option Traj) :=
  match adaptiveGo stepper rhs params isBad tolerance min_dt max_dt scale burn_in steps
    fuel 0 0 dt0 p0 with
  | .error e => .error e
  | .ok none => .ok none
  | .ok (some (raw, dts, pts)) => .ok (some ⟨p0 :: raw, 0 :: dts, pts⟩)

/-- The post-loop rendering hand-off: `sum(points) / len(points)` is
subtracted from every scaled point; an empty recording is reported as
`CANCELLED` instead (`none`). -/
def vsum (l : List Vec3) : Vec3 := l.foldr (· + ·) 0

/-- Centroid of a point list, `sum(points, Vector()) / len(points)`. -/
def centroid (l : List Vec3) : Vec3 := ((l.length : ℚ))⁻¹ • vsum l

/-- `renderPoints`: the centering step applied to the scaled recorded points
before `write_polyline`; `none` models the "No points were generated"
cancellation. -/
def renderPoints (pts : List Vec3) : Option (List Vec3) :=
  if pts.isEmpty then none
  else some (pts.map (fun q => q - centroid pts))

/-! ## Geometry post-processing -/

/-- `mathutils.Vector.lerp`: `a + f * (b - a)`. -/
def lerp (a b : Vec3) (f : ℚ) : Vec3 := a + f • (b - a)

/-- The `while j < n - 2 and cum[j+1] < t: j += 1` pointer advance of
`_resample_even`, with fuel (any fuel `≥ n` reproduces the loop exactly,
since `j` never passes `n - 2`). -/
def advanceJ (cum : List ℚ) (n : ℕ) (t : ℚ) : ℕ → ℕ → ℕ
  | 0, j => j
  | fuel + 1, j =>
    if j < n - 2 ∧ cum.getD (j + 1) 0 < t then advanceJ cum n t fuel (j + 1) else j

/-- The `for k in range(m)` output loop of `_resample_even`: one appended
point per iteration, with the bracket pointer `j` threaded through. -/
def resampleGo (points : List Vec3) (cum : List ℚ) (n m : ℕ) : ℕ → ℕ → ℕ → List Vec3
  | 0, _, _ => []
  | rem + 1, k, j =>
    let t := if 1 < m then (k : ℚ) / ((m : ℚ) - 1) else 0
    let j' := advanceJ cum n t n j
    let t0 := cum.getD j' 0
    let t1 := cum.getD (j' + 1) 0
    let f := if t1 ≤ t0 then 0 else (t - t0) / (t1 - t0)
    lerp (points.getD j' 0) (points.getD (j' + 1) 0) f ::
      resampleGo points cum n m rem (k + 1) j'

/-- The chord lengths `segL` of `_resample_even`. -/
def resampleSegL (sq : ℚ → ℚ) (points : List Vec3) : List ℚ :=
  (List.range (points.length - 1)).map
    (fun i => vlen sq (points.getD (i + 1) 0 - points.getD i 0))

/-- `_resample_even(points, m)`: arc-length resampling.  Degenerate inputs
(`n < 2`, `m <= 1`, `m >= n`, total length `<= 1e-12`) are returned
verbatim. -/
def _resample_even (sq : ℚ → ℚ) (points : List Vec3) (m : ℕ) : List Vec3 :=
  let n := points.length
  if n < 2 ∨ m ≤ 1 ∨ n ≤ m then points
  else
    let segL := resampleSegL sq points
    let total := segL.sum
    if total ≤ 1/10^12 then points
    else
      let cum := 0 :: (List.range (n - 1)).map (fun i => ((segL.take (i + 1)).sum) / total)
      resampleGo points cum n m m 0 0

/-- Point-to-chord distance used by `ramer_douglas_peucker`: distance to the
nearest point of the *segment* (`t` clamped to `[0, 1]`), or plain distance
to the shared endpoint when the chord has zero squared length. -/
def perpDist (sq : ℚ → ℚ) (p1 p2 p : Vec3) : ℚ :=
  let line_vec := p2 - p1
  let line_len_sq := line_vec.dot line_vec
  if line_len_sq = 0 then vlen sq (p - p1)
  else
    let t := line_vec.dot (p - p1) / line_len_sq
    let projection := p1 + (max 0 (min 1 t)) • line_vec
    vlen sq (p - projection)

/-- The `for i in range(1, end)` maximum-distance scan of
`ramer_douglas_peucker`, updating `(dmax, index)` on strict improvement. -/
def rdpScan (sq : ℚ → ℚ) (p1 p2 : Vec3) : List (ℕ × Vec3) → ℚ × ℕ → ℚ × ℕ
  | [], acc => acc
  | (i, q) :: rest, (dmax, idx) =>
    let d := perpDist sq p1 p2 q
    rdpScan sq p1 p2 rest (if dmax < d then (d, i) else (dmax, idx))

/-- `ramer_douglas_peucker(points, epsilon)`, with an explicit recursion-depth
fuel: `none` models the unbounded recursion the Python source runs into when
the split index fails to move (only possible for `epsilon < 0`); any fuel
`≥ len(points)` reproduces the source for `epsilon ≥ 0`. -/
def ramer_douglas_peucker (sq : ℚ → ℚ) : ℕ → List Vec3 → ℚ → Option (List Vec3)
  | 0, points, _ => if points.length < 3 then some points else none
  | fuel + 1, points, epsilon =>
    if points.length < 3 then some points
    else
      let p1 := points.headD 0
      let p2 := points.getLastD 0
      let interior := (List.range' 1 (points.length - 2)).map
        (fun i => (i, points.getD i 0))
      let s := rdpScan sq p1 p2 interior (0, 0)
      if epsilon < s.1 then
        match ramer_douglas_peucker sq fuel (points.take (s.2 + 1)) epsilon,
          ramer_douglas_peucker sq fuel (points.drop s.2) epsilon with
        | some rec1, some rec2 => some (rec1.dropLast ++ rec2)
        | _, _ => none
      else some [p1, p2]

/-- The `(dmax, index)` pair computed by the scan loop of
`ramer_douglas_peucker` over the interior points. -/
def rdpSplit (sq : ℚ → ℚ) (points : List Vec3) : ℚ × ℕ :=
  rdpScan sq (points.headD 0) (points.getLastD 0)
    ((List.range' 1 (points.length - 2)).map (fun i => (i, points.getD i 0))) (0, 0)

/-- One Bezier control point: `co` with its two handles. -/
structure BezierPoint where
  co : Vec3
  handle_left : Vec3
  handle_right : Vec3
deriving DecidableEq

instance : Inhabited BezierPoint := ⟨⟨0, 0, 0⟩⟩

/-- The first spline of the curve datablock as `_sample_bezier_uniform`
reads it; `none` at the call site models "no splines or not BEZIER". -/
structure BezierSpline where
  bezier_points : List BezierPoint
  use_cyclic_u : Bool
deriving DecidableEq

/-- The De Casteljau cubic of `_sample_bezier_uniform.cubic`. -/
def cubic (p0 h0 h1 p1 : Vec3) (t : ℚ) : Vec3 :=
  let a := lerp p0 h0 t
  let b := lerp h0 h1 t
  let c := lerp h1 p1 t
  let d := lerp a b t
  let e := lerp b c t
  lerp d e t

/-- The dense polyline built by `_sample_bezier_uniform`: each segment is
evaluated at `steps_per_seg + 1` parameters, skipping `s = 0` except on the
first segment. -/
def bezierDense (bps : List BezierPoint) (segs steps_per_seg : ℕ) : List Vec3 :=
  List.flatten ((List.range segs).map (fun i =>
    let p0 := (bps.getD i default).co
    let h0 := (bps.getD i default).handle_right
    let p1 := (bps.getD ((i + 1) % bps.length) default).co
    let h1 := (bps.getD ((i + 1) % bps.length) default).handle_left
    (List.range (steps_per_seg + 1)).filterMap (fun s : ℕ =>
      if 0 < s ∨ i = 0 then some (cubic p0 h0 h1 p1 ((s : ℚ) / (steps_per_seg : ℚ)))
      else none)))

/-- `_sample_bezier_uniform(obj, target_count, dense_cap)`; the `Option`
input models "no spline / first spline not BEZIER". -/
def _sample_bezier_uniform (sq : ℚ → ℚ) (spline : Option BezierSpline)
    (target_count dense_cap : ℕ) : Option (List Vec3) :=
  match spline with
  | none => none
  | some sp =>
    let bps := sp.bezier_points
    if bps.length < 2 ∨ target_count < 2 then none
    else
      let segs := bps.length - (if sp.use_cyclic_u then 0 else 1)
      if segs = 0 then none
      else
        let steps_per_seg := max 4 (dense_cap / segs)
        let dense_pts := bezierDense bps segs steps_per_seg
        if dense_pts.isEmpty then none
        else some (_resample_even sq dense_pts target_count)

/-! ## Basic monad-reduction lemmas -/

deriving instance DecidableEq for Except

@[simp] theorem exceptBind_ok {ε α β : Type} (a : α) (f : α → Except ε β) :
    (Except.ok a >>= f) = f a := rfl

@[simp] theorem exceptBind_error {ε α β : Type} (e : ε) (f : α → Except ε β) :
    ((Except.error e : Except ε α) >>= f) = Except.error e := rfl

/-- A trivial instantiation of the abstract `math`-library semantics, used
only by concrete witnesses that never reach a whitelisted call or a
fractional exponent. -/
def fsDefault : FloatSem :=
  ⟨fun _ _ => .error .hostError, fun _ _ => .error .hostError⟩

/-! ## Unsafe trees -/

/-- A tree (relative to an evaluation environment) that contains a construct
the `_eval_ast` whitelist rejects: a node type outside `_ALLOWED_NODES`, an
operator token missing from the operator dictionaries, a call whose callee
is not a whitelisted function name, or a bare identifier not bound in the
environment.  (Note the environment binds `x`, `y`, `z` and the parameters
only — a *bare* whitelisted function name is also unknown.) -/
inductive Unsafe (env : String → Option ℚ) : PyAst → Prop where
  | expr {b : PyAst} : Unsafe env b → Unsafe env (.expression b)
  | unknown {id : String} : env id = none → Unsafe env (.name id)
  | uopArg {op : UOp} {e : PyAst} : Unsafe env e → Unsafe env (.unaryOp op e)
  | uopBad {e : PyAst} : Unsafe env (.unaryOp .otherU e)
  | binLeft {l : PyAst} {op : BOp} {r : PyAst} : Unsafe env l → Unsafe env (.binOp l op r)
  | binRight {l : PyAst} {op : BOp} {r : PyAst} : Unsafe env r → Unsafe env (.binOp l op r)
  | binBad {l r : PyAst} : Unsafe env (.binOp l .otherB r)
  | callBadFunc {f : PyAst} {args : List PyAst} :
      (∀ id, f = .name id → id ∉ _ALLOWED_FUNCS) → Unsafe env (.call f args)
  | callArg {f : PyAst} {args : List PyAst} {a : PyAst} :
      a ∈ args → Unsafe env a → Unsafe env (.call f args)
  | disallowedNode {k : String} : Unsafe env (.disallowed k)

theorem eval_args_error (fs : FloatSem) (env : String → Option ℚ) :
    ∀ (args : List PyAst) (a : PyAst), a ∈ args →
      (∃ e, _eval_ast fs env a = .error e) →
      ∃ e, _eval_ast_args fs env args = .error e := by
  intro args
  induction args with
  | nil => intro a ha; cases ha
  | cons hd tl ih =>
    intro a ha ⟨e, he⟩
    rcases List.mem_cons.mp ha with rfl | hmem
    · exact ⟨e, by simp [_eval_ast_args, he]⟩
    · cases hhd : _eval_ast fs env hd with
      | error e' => exact ⟨e', by simp [_eval_ast_args, hhd]⟩
      | ok v =>
        obtain ⟨e', he'⟩ := ih a hmem ⟨e, he⟩
        exact ⟨e', by simp [_eval_ast_args, hhd, he']⟩

/-- An unsafe tree never evaluates to a value: some exception is raised on
every path (the whitelist exception itself, or an arithmetic exception
raised by an operand evaluated earlier). -/
theorem unsafe_eval_fails (fs : FloatSem) (env : String → Option ℚ) (t : PyAst)
    (h : Unsafe env t) : ∃ e, _eval_ast fs env t = .error e := by
  induction h with
  | expr _ ih => simpa [_eval_ast] using ih
  | @unknown id hid => exact ⟨.unknownSymbol id, by simp [_eval_ast, hid]⟩
  | uopArg _ ih =>
    obtain ⟨e, he⟩ := ih
    exact ⟨e, by simp [_eval_ast, he]⟩
  | @uopBad e =>
    cases hop : _eval_ast fs env e with
    | error e' => exact ⟨e', by simp [_eval_ast, hop]⟩
    | ok v => exact ⟨.typeErr, by simp [_eval_ast, hop]⟩
  | binLeft _ ih =>
    obtain ⟨e, he⟩ := ih
    exact ⟨e, by simp [_eval_ast, he]⟩
  | @binRight l op r _ ih =>
    obtain ⟨e, he⟩ := ih
    cases hl : _eval_ast fs env l with
    | error e' => exact ⟨e', by simp [_eval_ast, hl]⟩
    | ok v => exact ⟨e, by simp [_eval_ast, hl, he]⟩
  | @binBad l r =>
    cases hl : _eval_ast fs env l with
    | error e' => exact ⟨e', by simp [_eval_ast, hl]⟩
    | ok v =>
      cases hr : _eval_ast fs env r with
      | error e' => exact ⟨e', by simp [_eval_ast, hl, hr]⟩
      | ok w => exact ⟨.typeErr, by simp [_eval_ast, hl, hr]⟩
  | @callBadFunc f args hf =>
    cases f with
    | name id =>
      have hid : id ∉ _ALLOWED_FUNCS := hf id rfl
      exact ⟨.unsupportedOp, by simp [_eval_ast, hid]⟩
    | expression b => exact ⟨.unsupportedOp, by simp [_eval_ast]⟩
    | constant v => exact ⟨.unsupportedOp, by simp [_eval_ast]⟩
    | unaryOp op e => exact ⟨.unsupportedOp, by simp [_eval_ast]⟩
    | binOp l op r => exact ⟨.unsupportedOp, by simp [_eval_ast]⟩
    | call f' args' => exact ⟨.unsupportedOp, by simp [_eval_ast]⟩
    | disallowed k => exact ⟨.unsupportedOp, by simp [_eval_ast]⟩
  | @callArg f args a hmem _ ih =>
    cases f with
    | name id =>
      by_cases hid : id ∈ _ALLOWED_FUNCS
      · obtain ⟨e, he⟩ := eval_args_error fs env args a hmem ih
        exact ⟨e, by simp [_eval_ast, hid, he]⟩
      · exact ⟨.unsupportedOp, by simp [_eval_ast, hid]⟩
    | expression b => exact ⟨.unsupportedOp, by simp [_eval_ast]⟩
    | constant v => exact ⟨.unsupportedOp, by simp [_eval_ast]⟩
    | unaryOp op e => exact ⟨.unsupportedOp, by simp [_eval_ast]⟩
    | binOp l op r => exact ⟨.unsupportedOp, by simp [_eval_ast]⟩
    | call f' args' => exact ⟨.unsupportedOp, by simp [_eval_ast]⟩
    | disallowed k => exact ⟨.unsupportedOp, by simp [_eval_ast]⟩
  | disallowedNode => exact ⟨.disallowedElement, by simp [_eval_ast]⟩

/-! ## Claim C1 -/

/-- C1 counterexample: a parsed tree containing an `ast.Attribute` node — a
node outside the whitelist — is *accepted* by `_compile_rhs_expression`,
which returns its evaluation closure without raising; the claim that
`compile` fails with `UnsafeExpressionError` at compile time is therefore
false on the code. -/
theorem c1_counterexample :
    _compile_rhs_expression (some (PyAst.expression (PyAst.disallowed "Attribute"))) =
      Except.ok (PyAst.expression (PyAst.disallowed "Attribute")) := rfl

/-- C1 (amended): `compile` fails with `SyntaxError` exactly when the string
does not parse as an expression, and otherwise always succeeds — the
whitelist is *not* enforced at compile time.  It is enforced at evaluation
time: evaluating a compiled tree that contains a node outside the whitelist,
an operator outside the operator tables, a call to anything but a
whitelisted function name, or a bare identifier not bound in the evaluation
environment (`x`, `y`, `z` and the declared parameters) never yields a
value; a tree whose root is a disallowed node raises the
`UnsafeExpressionError` for disallowed elements itself. -/
theorem c1_amended_whitelist_deferred_to_evaluation :
    (_compile_rhs_expression none = Except.error CompileErr.parseError)
    ∧ (∀ t : PyAst, _compile_rhs_expression (some t) = Except.ok t)
    ∧ (∀ (fs : FloatSem) (env : String → Option ℚ) (t : PyAst),
        Unsafe env t → ∃ e, _eval_ast fs env t = Except.error e)
    ∧ (∀ (fs : FloatSem) (env : String → Option ℚ) (k : String),
        _eval_ast fs env (PyAst.disallowed k) = Except.error EvalErr.disallowedElement) :=
  ⟨rfl, fun _ => rfl, fun fs env t h => unsafe_eval_fails fs env t h, fun _ _ _ => rfl⟩

/-- C1 witness: the bare unknown identifier `q` is unsafe for the empty
parameter environment, and its evaluation indeed fails. -/
theorem c1_witness :
    Unsafe (mkEnv 0 0 0 []) (PyAst.name "q")
    ∧ ∃ e, _eval_ast fsDefault (mkEnv 0 0 0 []) (PyAst.name "q") = Except.error e := by
  have hq : mkEnv 0 0 0 [] "q" = none := by decide
  exact ⟨Unsafe.unknown hq,
    c1_amended_whitelist_deferred_to_evaluation.2.2.1 fsDefault (mkEnv 0 0 0 [])
      (PyAst.name "q") (Unsafe.unknown hq)⟩

/-! ## Claim C2 -/

/-- The tree parsed from the expression string `1/x`. -/
def treeInvX : PyAst := .expression (.binOp (.constant 1) .div (.name "x"))

/-- The tree parsed from the expression string `0`. -/
def treeZero : PyAst := .expression (.constant 0)

theorem rhs_invX_at_x0 (fs : FloatSem) (params : Params) (p0 : Vec3)
    (hx : List.lookup "x" params = none) (hp : p0.x = 0) :
    rhsFromTrees fs treeInvX treeZero treeZero p0 params =
      Except.error EvalErr.zeroDivision := by
  have henv : mkEnv p0.x p0.y p0.z params "x" = some 0 := by
    simp [mkEnv, hx, hp]
  simp [rhsFromTrees, runCompiled, treeInvX, _eval_ast, henv]

/-- C2 counterexample: evaluating the compiled `1/x` at `x = 0` raises
`ZeroDivisionError` (Python float division raises, it does not produce IEEE
Infinity), and the fixed-mode generation of the singular field
`(1/x, 0, 0)` from `(0, 0, 0)` therefore aborts with that propagated
evaluation error — not with the numerical-instability error the claim
promises. -/
theorem c2_counterexample :
    runCompiled fsDefault treeInvX 0 0 0 [] = Except.error EvalErr.zeroDivision
    ∧ fixedGen FixedMethod.RK4 (rhsFromTrees fsDefault treeInvX treeZero treeZero) []
        (fun _ => false) (1/100) 1 1 0 ⟨0, 0, 0⟩ =
      Except.error (GenErr.fieldError EvalErr.zeroDivision) := by
  constructor
  · decide
  · decide

/-- C2 (amended): evaluation is *not* total with respect to arithmetic
exceptions — division by zero raises `ZeroDivisionError` at evaluation time
(vectorised by `rhsFromTrees`); consequently a vector field with a genuine
singularity (`dx = 1/x` evaluated at `x = 0`) makes every generation mode
abort immediately (at step 0) with the propagated `ZeroDivisionError`
rather than with `NumericalInstabilityError`, and no `Infinity`-valued
point is ever produced. -/
theorem c2_amended_division_by_zero_raises :
    ∀ (fs : FloatSem) (params : Params) (p0 : Vec3),
      List.lookup "x" params = none → p0.x = 0 →
      (rhsFromTrees fs treeInvX treeZero treeZero p0 params =
        Except.error EvalErr.zeroDivision)
      ∧ (∀ (m : FixedMethod) (isBad : ℚ → Bool) (dt scale : ℚ) (steps burn_in : ℕ),
          1 ≤ steps + burn_in →
          fixedGen m (rhsFromTrees fs treeInvX treeZero treeZero) params isBad dt scale
            steps burn_in p0 = Except.error (GenErr.fieldError EvalErr.zeroDivision))
      ∧ (∀ (sq : ℚ → ℚ) (rp : ℚ → ℚ → ℚ) (isBad : ℚ → Bool)
          (tol mind maxd scale dt0 : ℚ) (burn_in steps fuel : ℕ),
          1 ≤ steps → 1 ≤ fuel →
          adaptiveGen (step_rkf45 sq rp) (rhsFromTrees fs treeInvX treeZero treeZero)
            params isBad tol mind maxd scale dt0 burn_in steps p0 fuel =
            Except.error (GenErr.fieldError EvalErr.zeroDivision)
          ∧ adaptiveGen (step_dp5 sq rp) (rhsFromTrees fs treeInvX treeZero treeZero)
            params isBad tol mind maxd scale dt0 burn_in steps p0 fuel =
            Except.error (GenErr.fieldError EvalErr.zeroDivision)) := by
  intro fs params p0 hx hp
  have hrhs := rhs_invX_at_x0 fs params p0 hx hp
  refine ⟨hrhs, ?_, ?_⟩
  · intro m isBad dt scale steps burn_in hsb
    obtain ⟨n, hn⟩ := Nat.exists_eq_add_of_le hsb
    have hstep : fixedStep1 m (rhsFromTrees fs treeInvX treeZero treeZero) params dt p0 =
        Except.error (GenErr.fieldError EvalErr.zeroDivision) := by
      cases m <;>
        simp [fixedStep1, pickFixed, step_euler, step_heun, step_rk4, hrhs]
    simp [fixedGen, hn, Nat.add_comm 1 n, fixedGo, hstep]
  · intro sq rp isBad tol mind maxd scale dt0 burn_in steps fuel hsteps hfuel
    obtain ⟨nf, hnf⟩ := Nat.exists_eq_add_of_le hfuel
    have hlt : ¬ steps ≤ 0 := by omega
    constructor
    · have hstep : step_rkf45 sq rp (rhsFromTrees fs treeInvX treeZero treeZero) p0 params
          (max mind (min maxd dt0)) tol = Except.error EvalErr.zeroDivision := by
        simp [step_rkf45, hrhs]
      simp [adaptiveGen, hnf, Nat.add_comm 1 nf, adaptiveGo, hlt, hstep]
    · have hstep : step_dp5 sq rp (rhsFromTrees fs treeInvX treeZero treeZero) p0 params
          (max mind (min maxd dt0)) tol = Except.error EvalErr.zeroDivision := by
        simp [step_dp5, hrhs]
      simp [adaptiveGen, hnf, Nat.add_comm 1 nf, adaptiveGo, hlt, hstep]

/-- C2 witness: the amended statement at the concrete singular
configuration (empty parameters, origin start, Euler, one step). -/
theorem c2_witness :
    rhsFromTrees fsDefault treeInvX treeZero treeZero ⟨0, 0, 0⟩ [] =
      Except.error EvalErr.zeroDivision
    ∧ fixedGen FixedMethod.EULER (rhsFromTrees fsDefault treeInvX treeZero treeZero) []
        (fun _ => false) 1 1 1 0 ⟨0, 0, 0⟩ =
      Except.error (GenErr.fieldError EvalErr.zeroDivision) := by
  have h := c2_amended_division_by_zero_raises fsDefault [] ⟨0, 0, 0⟩ (by decide) rfl
  exact ⟨h.1, h.2.1 FixedMethod.EULER (fun _ => false) 1 1 1 0 (by decide)⟩

/-! ## Generator loop lemmas -/

/-- `n`-fold application of a one-step advance map. -/
def iterStep (F : Vec3 → Vec3) : ℕ → Vec3 → Vec3
  | 0, p => p
  | n + 1, p => iterStep F n (F p)

theorem iterStep_zero (F : Vec3 → Vec3) (p : Vec3) : iterStep F 0 p = p := rfl

theorem iterStep_succ_inner (F : Vec3 → Vec3) (n : ℕ) (p : Vec3) :
    iterStep F (n + 1) p = iterStep F n (F p) := rfl

theorem iterStep_one (F : Vec3 → Vec3) (p : Vec3) : iterStep F 1 p = F p := rfl

/-- Structural facts about a fixed-mode loop run that returns normally: the
recorded lists are parallel, every recorded raw point passed the
instability check, and the scaled list is the raw list scaled. -/
theorem fixedGo_ok_inv (step1 : Vec3 → Except GenErr Vec3) (isBad : ℚ → Bool)
    (dt scale : ℚ) (burn_in : ℕ) :
    ∀ (n i : ℕ) (p : Vec3) (raw : List Vec3) (dts : List ℚ) (pts : List Vec3),
      fixedGo step1 isBad dt scale burn_in n i p = .ok (raw, dts, pts) →
      raw.length = dts.length ∧ pts = raw.map (fun v => scale • v) ∧
        ∀ v ∈ raw, badVec isBad v = false := by
  intro n
  induction n with
  | zero =>
    intro i p raw dts pts h
    simp [fixedGo] at h
    obtain ⟨h1, h2, h3⟩ := h
    subst h1; subst h2; subst h3
    simp
  | succ n ih =>
    intro i p raw dts pts h
    simp only [fixedGo] at h
    cases hstep : step1 p with
    | error e => rw [hstep] at h; simp at h
    | ok p' =>
      rw [hstep] at h
      simp only [exceptBind_ok] at h
      cases hbad : badVec isBad p' with
      | true => rw [hbad] at h; simp at h
      | false =>
        rw [hbad] at h
        simp only [Bool.false_eq_true, if_false] at h
        cases hrec : fixedGo step1 isBad dt scale burn_in n (i + 1) p' with
        | error e => rw [hrec] at h; simp at h
        | ok trip =>
          obtain ⟨raw', dts', pts'⟩ := trip
          rw [hrec] at h
          simp only [exceptBind_ok] at h
          obtain ⟨hlen, hmap, hgood⟩ := ih (i + 1) p' raw' dts' pts' hrec
          by_cases hb : burn_in ≤ i
          · rw [if_pos hb] at h
            simp only [Except.ok.injEq, Prod.mk.injEq] at h
            obtain ⟨h1, h2, h3⟩ := h
            subst h1; subst h2; subst h3
            refine ⟨by simp [hlen], by simp [hmap], ?_⟩
            intro v hv
            rcases List.mem_cons.mp hv with rfl | hv'
            · exact hbad
            · exact hgood v hv'
          · rw [if_neg hb] at h
            simp only [Except.ok.injEq, Prod.mk.injEq] at h
            obtain ⟨h1, h2, h3⟩ := h
            subst h1; subst h2; subst h3
            exact ⟨hlen, hmap, hgood⟩

/-- The raw points a pure fixed-mode loop starting at loop index `i` will
record: the iterates of the advance map whose index has cleared the
burn-in. -/
def recList (F : Vec3 → Vec3) (burn_in : ℕ) : ℕ → ℕ → Vec3 → List Vec3
  | 0, _, _ => []
  | n + 1, i, p =>
    if burn_in ≤ i then F p :: recList F burn_in n (i + 1) (F p)
    else recList F burn_in n (i + 1) (F p)

/-- `recList` in closed form: the `(j+1)`-st iterates over the indices `j`
of the iteration range that have cleared the burn-in. -/
theorem recList_eq_filter_range (F : Vec3 → Vec3) (burn_in : ℕ) :
    ∀ (n i : ℕ) (p : Vec3),
      recList F burn_in n i p =
        ((List.range n).filter (fun j => burn_in ≤ i + j)).map
          (fun j => iterStep F (j + 1) p) := by
  intro n
  induction n with
  | zero => intro i p; simp [recList]
  | succ n ih =>
    intro i p
    have hrange : List.range (n + 1) = 0 :: (List.range n).map Nat.succ :=
      List.range_succ_eq_map n
    rw [recList, ih (i + 1) (F p), hrange]
    have hcond : ∀ j : ℕ, (burn_in ≤ i + Nat.succ j) = (burn_in ≤ i + 1 + j) := by
      intro j; rw [show i + Nat.succ j = i + 1 + j by omega]
    simp only [List.filter_cons, Nat.add_zero, List.filter_map, List.map_map,
      Function.comp_def, hcond, iterStep_succ_inner]
    by_cases hb : burn_in ≤ i
    · simp [hb, iterStep_one]
      exact ⟨rfl, fun a _ _ => rfl⟩
    · simp [hb]
      exact fun a _ _ => rfl

/-- A fixed-mode loop whose stepper is exact (advance map `F`) and whose
iterates all pass the instability check returns normally, recording the
`recList` iterates with the constant `dt` alongside and the scaled copies in
the points list. -/
theorem fixedGo_pure (step1 : Vec3 → Except GenErr Vec3) (isBad : ℚ → Bool)
    (dt scale : ℚ) (burn_in : ℕ) (F : Vec3 → Vec3)
    (hF : ∀ q, step1 q = .ok (F q)) :
    ∀ (n i : ℕ) (p : Vec3),
      (∀ j < n, badVec isBad (iterStep F (j + 1) p) = false) →
      fixedGo step1 isBad dt scale burn_in n i p =
        .ok (recList F burn_in n i p,
             (recList F burn_in n i p).map (fun _ => dt),
             (recList F burn_in n i p).map (fun v => scale • v)) := by
  intro n
  induction n with
  | zero => intro i p _; simp [fixedGo, recList]
  | succ n ih =>
    intro i p hgood
    have h0 : badVec isBad (F p) = false := by
      have := hgood 0 (Nat.succ_pos n)
      simpa [iterStep] using this
    have hrec := ih (i + 1) (F p) (fun j hj => by
      have := hgood (j + 1) (by omega)
      simpa [iterStep_succ_inner] using this)
    simp only [fixedGo, hF p, exceptBind_ok, h0, Bool.false_eq_true, if_false, hrec,
      recList]
    by_cases hb : burn_in ≤ i
    · simp [hb]
    · simp [hb]

/-- A fixed-mode loop aborts at the first iterate failing the instability
check, raising with the offending loop index. -/
theorem fixedGo_first_bad (step1 : Vec3 → Except GenErr Vec3) (isBad : ℚ → Bool)
    (dt scale : ℚ) (burn_in : ℕ) (F : Vec3 → Vec3)
    (hF : ∀ q, step1 q = .ok (F q)) :
    ∀ (t n i : ℕ) (p : Vec3), t < n →
      badVec isBad (iterStep F (t + 1) p) = true →
      (∀ j < t, badVec isBad (iterStep F (j + 1) p) = false) →
      fixedGo step1 isBad dt scale burn_in n i p = .error (.instability (some (i + t))) := by
  intro t
  induction t with
  | zero =>
    intro n i p hn hbad _
    obtain ⟨n', rfl⟩ := Nat.exists_eq_add_of_lt hn
    have h1 : badVec isBad (F p) = true := by simpa [iterStep] using hbad
    simp only [Nat.zero_add]
    simp [fixedGo, hF p, h1]
  | succ t ih =>
    intro n i p hn hbad hfirst
    obtain ⟨n', rfl⟩ := Nat.exists_eq_add_of_lt hn
    have h0 : badVec isBad (F p) = false := by
      have := hfirst 0 (Nat.succ_pos t)
      simpa [iterStep] using this
    have hrec := ih ((t + 1) + n') (i + 1) (F p) (by omega)
      (by simpa [iterStep_succ_inner] using hbad)
      (fun j hj => by
        have := hfirst (j + 1) (by omega)
        simpa [iterStep_succ_inner] using this)
    have hgoal : fixedGo step1 isBad dt scale burn_in ((t + 1 + n') + 1) i p =
        .error (.instability (some (i + (t + 1)))) := by
      simp only [fixedGo, hF p, exceptBind_ok, h0, Bool.false_eq_true, if_false, hrec,
        exceptBind_error]
      have : i + 1 + t = i + (t + 1) := by omega
      rw [this]
    simpa using hgoal

/-- Structural facts about an adaptive-mode loop run that settles normally:
parallel lists, every recorded raw point passed the instability check, the
scaled list is the raw list scaled, and exactly the remaining
`steps - ptsGen` points are recorded. -/
theorem adaptiveGo_ok_inv (stepper : AdStepper) (rhs : RhsFn) (params : Params)
    (isBad : ℚ → Bool) (tol mind maxd scale : ℚ) (burn_in steps : ℕ) :
    ∀ (fuel pg bd : ℕ) (dtv : ℚ) (p : Vec3) (raw : List Vec3) (dts : List ℚ)
      (pts : List Vec3),
      adaptiveGo stepper rhs params isBad tol mind maxd scale burn_in steps fuel pg bd dtv p =
        .ok (some (raw, dts, pts)) →
      raw.length = dts.length ∧ pts = raw.map (fun v => scale • v) ∧
        (∀ v ∈ raw, badVec isBad v = false) ∧ pts.length = steps - pg := by
  intro fuel
  induction fuel with
  | zero => intro pg bd dtv p raw dts pts h; simp [adaptiveGo] at h
  | succ fuel ih =>
    intro pg bd dtv p raw dts pts h
    simp only [adaptiveGo] at h
    by_cases hdone : steps ≤ pg
    · rw [if_pos hdone] at h
      simp only [Except.ok.injEq, Option.some.injEq, Prod.mk.injEq] at h
      obtain ⟨h1, h2, h3⟩ := h
      subst h1; subst h2; subst h3
      simp [Nat.sub_eq_zero_of_le hdone]
    · rw [if_neg hdone] at h
      cases hstep : stepper rhs p params (max mind (min maxd dtv)) tol with
      | error e => rw [hstep] at h; simp at h
      | ok trip =>
        obtain ⟨pn, ndt, acc⟩ := trip
        rw [hstep] at h
        simp only at h
        cases acc with
        | false =>
          simp only [Bool.false_eq_true, if_false] at h
          exact ih pg bd ndt p raw dts pts h
        | true =>
          simp only [if_true] at h
          cases hbad : badVec isBad pn with
          | true => rw [hbad] at h; simp at h
          | false =>
            rw [hbad] at h
            simp only [Bool.false_eq_true, if_false] at h
            by_cases hburn : burn_in ≤ bd
            · rw [if_pos hburn] at h
              cases hrec : adaptiveGo stepper rhs params isBad tol mind maxd scale burn_in
                  steps fuel (pg + 1) bd ndt pn with
              | error e => rw [hrec] at h; simp at h
              | ok orr =>
                cases orr with
                | none => rw [hrec] at h; simp at h
                | some trip' =>
                  obtain ⟨raw', dts', pts'⟩ := trip'
                  rw [hrec] at h
                  simp only [Except.ok.injEq, Option.some.injEq, Prod.mk.injEq] at h
                  obtain ⟨h1, h2, h3⟩ := h
                  subst h1; subst h2; subst h3
                  obtain ⟨hlen, hmap, hgood, hcnt⟩ := ih (pg + 1) bd ndt pn raw' dts' pts' hrec
                  refine ⟨by simp [hlen], by simp [hmap], ?_, ?_⟩
                  · intro v hv
                    rcases List.mem_cons.mp hv with rfl | hv'
                    · exact hbad
                    · exact hgood v hv'
                  · simp only [List.length_cons, hcnt]; omega
            · rw [if_neg hburn] at h
              exact ih pg (bd + 1) ndt pn raw dts pts h

/-- If every attempted step is accepted, the adaptive loop cannot run out of
fuel once the fuel exceeds the outstanding burn-in and recording budget. -/
theorem adaptiveGo_progress (stepper : AdStepper) (rhs : RhsFn) (params : Params)
    (isBad : ℚ → Bool) (tol mind maxd scale : ℚ) (burn_in steps : ℕ)
    (hacc : ∀ (p : Vec3) (d : ℚ), ∃ pn ndt,
      stepper rhs p params d tol = .ok (pn, ndt, true)) :
    ∀ (fuel pg bd : ℕ) (dtv : ℚ) (p : Vec3),
      (steps - pg) + (burn_in - bd) < fuel →
      adaptiveGo stepper rhs params isBad tol mind maxd scale burn_in steps fuel pg bd dtv p ≠
        .ok none := by
  intro fuel
  induction fuel with
  | zero => intro pg bd dtv p hlt; omega
  | succ fuel ih =>
    intro pg bd dtv p hlt
    simp only [adaptiveGo]
    by_cases hdone : steps ≤ pg
    · simp [hdone]
    · rw [if_neg hdone]
      obtain ⟨pn, ndt, hstep⟩ := hacc p (max mind (min maxd dtv))
      rw [hstep]
      simp only [if_true]
      cases hbad : badVec isBad pn with
      | true => simp
      | false =>
        simp only [Bool.false_eq_true, if_false]
        by_cases hburn : burn_in ≤ bd
        · rw [if_pos hburn]
          have hrec := ih (pg + 1) bd ndt pn (by omega)
          cases hrec' : adaptiveGo stepper rhs params isBad tol mind maxd scale burn_in
              steps fuel (pg + 1) bd ndt pn with
          | error e => simp
          | ok orr =>
            cases orr with
            | none => exact absurd hrec' hrec
            | some trip => obtain ⟨r, d, s⟩ := trip; simp
        · rw [if_neg hburn]
          exact ih pg (bd + 1) ndt pn (by omega)

/-- On the identically-zero field the RKF45 error estimate is zero, so the
floored error is `1e-20` and every attempt with tolerance at least `1e-20`
is accepted without moving the state. -/
theorem step_rkf45_zero_field (sq : ℚ → ℚ) (rp : ℚ → ℚ → ℚ) (hsq : sq 0 = 0)
    (p : Vec3) (params : Params) (d tol : ℚ) (htol : 1/10^20 ≤ tol) :
    step_rkf45 sq rp (pureRhs (fun _ _ => 0)) p params d tol =
      .ok (p, 9/10 * d * rp (tol / (1/10^20)) (1/5), true) := by
  simp only [step_rkf45, pureRhs, exceptBind_ok, Vec3.smul_zero', Vec3.add_zero',
    Vec3.zero_add', Vec3.sub_self', vlen, Vec3.dot_zero, hsq]
  rw [if_pos (by norm_num : (0:ℚ) ≤ 1/10^20), if_pos htol]

/-! ## Claim C3 -/

/-- C3 counterexample: an adaptive-mode run that aborts on the instability
check raises the error *without* any step index (the source message is the
index-free "Numerical instability detected."), so the claim that the error
carries the offending step index in every generation mode is false. -/
theorem c3_counterexample :
    adaptiveGen (step_rkf45 ratSqrt ratRpow) (pureRhs (fun _ _ => 0)) [] (fun _ => true)
      1 (1/1000) 1 1 (1/100) 0 1 ⟨0, 0, 0⟩ 1 = Except.error (GenErr.instability none)
    ∧ ∀ k : ℕ, GenErr.instability none ≠ GenErr.instability (some k) := by
  refine ⟨?_, fun k => by simp⟩
  have hstep := step_rkf45_zero_field ratSqrt ratRpow ratSqrt_zero ⟨0, 0, 0⟩ []
    (max (1/1000) (min 1 (1/100))) 1 (by norm_num)
  have hgo : ∀ fuel : ℕ, adaptiveGo (step_rkf45 ratSqrt ratRpow) (pureRhs (fun _ _ => 0)) []
      (fun _ => true) 1 (1/1000) 1 1 0 1 (fuel + 1) 0 0 (1/100) ⟨0, 0, 0⟩ =
      Except.error (GenErr.instability none) := by
    intro fuel
    rw [adaptiveGo, if_neg (by omega : ¬ (1:ℕ) ≤ 0)]
    simp only [hstep]
    simp [badVec]
  have h1 := hgo 0
  norm_num at h1
  rw [adaptiveGen, h1]

/-- C3 (amended): in both modes every accepted advance is checked
coordinate-wise and the first failing point aborts the entire generation
with the instability error — no trajectory value is returned from this path
(the error constructor carries no lists) — but only the fixed-mode error
carries the offending step index; the adaptive-mode error carries none. -/
theorem c3_amended_instability_abort :
    (∀ (m : FixedMethod) (rhs : RhsFn) (params : Params) (isBad : ℚ → Bool)
       (dt scale : ℚ) (steps burn_in : ℕ) (p0 : Vec3) (F : Vec3 → Vec3) (k : ℕ),
       (∀ q, fixedStep1 m rhs params dt q = .ok (F q)) →
       k < steps + burn_in →
       badVec isBad (iterStep F (k + 1) p0) = true →
       (∀ j < k, badVec isBad (iterStep F (j + 1) p0) = false) →
       fixedGen m rhs params isBad dt scale steps burn_in p0 =
         Except.error (GenErr.instability (some k)))
    ∧ (∀ (stepper : AdStepper) (rhs : RhsFn) (params : Params) (isBad : ℚ → Bool)
        (tol mind maxd scale : ℚ) (burn_in steps fuel pg bd : ℕ) (dtv : ℚ) (p pn : Vec3)
        (ndt : ℚ),
        pg < steps →
        stepper rhs p params (max mind (min maxd dtv)) tol = .ok (pn, ndt, true) →
        badVec isBad pn = true →
        adaptiveGo stepper rhs params isBad tol mind maxd scale burn_in steps (fuel + 1)
          pg bd dtv p = Except.error (GenErr.instability none)) := by
  constructor
  · intro m rhs params isBad dt scale steps burn_in p0 F k hF hk hbad hfirst
    have h := fixedGo_first_bad (fixedStep1 m rhs params dt) isBad dt scale burn_in F hF
      k (steps + burn_in) 0 p0 hk hbad hfirst
    simp [fixedGen, h]
  · intro stepper rhs params isBad tol mind maxd scale burn_in steps fuel pg bd dtv p pn
      ndt hpg hstep hbad
    have hlt : ¬ steps ≤ pg := by omega
    simp [adaptiveGo, hlt, hstep, hbad]

/-- C3 witness: a fixed-mode run whose second iterate is the first bad point
aborts with index 1, and an adaptive-mode accepted-but-bad step aborts with
the index-free error. -/
theorem c3_witness :
    fixedGen FixedMethod.EULER (pureRhs (fun _ _ => ⟨1, 0, 0⟩)) []
      (fun q => decide (2 ≤ q)) 1 1 2 0 ⟨0, 0, 0⟩ =
      Except.error (GenErr.instability (some 1))
    ∧ adaptiveGo (step_rkf45 ratSqrt ratRpow) (pureRhs (fun _ _ => 0)) [] (fun _ => true)
        1 1 1 1 0 1 1 0 0 1 ⟨0, 0, 0⟩ = Except.error (GenErr.instability none) := by
  constructor
  · refine c3_amended_instability_abort.1 FixedMethod.EULER
      (pureRhs (fun _ _ => ⟨1, 0, 0⟩)) [] (fun q => decide (2 ≤ q)) 1 1 2 0 ⟨0, 0, 0⟩
      ((fun q => q + (1 : ℚ) • (⟨1, 0, 0⟩ : Vec3)) : Vec3 → Vec3) 1 (fun q => rfl)
      (by omega) ?_ ?_
    · have h2 : iterStep (fun q => q + (1 : ℚ) • ⟨1, 0, 0⟩) (1 + 1) ⟨0, 0, 0⟩ =
          ⟨0, 0, 0⟩ + (1 : ℚ) • ⟨1, 0, 0⟩ + (1 : ℚ) • ⟨1, 0, 0⟩ := rfl
      rw [h2]
      norm_num [badVec]
    · intro j hj
      interval_cases j
      have h1 : iterStep (fun q => q + (1 : ℚ) • ⟨1, 0, 0⟩) (0 + 1) ⟨0, 0, 0⟩ =
          ⟨0, 0, 0⟩ + (1 : ℚ) • ⟨1, 0, 0⟩ := rfl
      rw [h1]
      norm_num [badVec]
  · exact c3_amended_instability_abort.2 (step_rkf45 ratSqrt ratRpow)
      (pureRhs (fun _ _ => 0)) [] (fun _ => true) 1 1 1 1 0 1 0 0 0 1 ⟨0, 0, 0⟩
      ⟨0, 0, 0⟩ (9/10 * max 1 (min 1 1) * ratRpow (1 / (1/10^20)) (1/5)) (by omega)
      (step_rkf45_zero_field ratSqrt ratRpow ratSqrt_zero ⟨0, 0, 0⟩ []
        (max 1 (min 1 1)) 1 (by norm_num)) rfl

/-! ## Claim C4 -/

/-- C4 counterexample: the caller's initial point is recorded as
`_raw_points[0]` *before* any instability check and is never checked, so a
run started from a point flagged by the non-finiteness test completes
normally with that flagged point as the trajectory head. -/
theorem c4_counterexample :
    fixedGen FixedMethod.EULER (pureRhs (fun _ _ => ⟨-10, 0, 0⟩)) []
      (fun q => decide (5 ≤ q)) 1 1 1 0 ⟨5, 0, 0⟩ =
      Except.ok ⟨[⟨5, 0, 0⟩, ⟨-5, 0, 0⟩], [0, 1], [⟨-5, 0, 0⟩]⟩
    ∧ badVec (fun q => decide (5 ≤ q)) ⟨5, 0, 0⟩ = true := by
  constructor
  · norm_num [fixedGen, fixedGo, fixedStep1, pickFixed, step_euler, pureRhs, badVec]
  · norm_num [badVec]

/-- C4 (amended): every trajectory returned by either generation mode has
`_raw_points` and `_raw_dts` of equal length and starts with the caller's
(pre-burn-in) initial point; every element *after* the head passed the
non-finiteness check.  The head itself is recorded unchecked, so the
"no element is NaN/Infinity" guarantee holds only from index 1 on. -/
theorem c4_amended_trajectory_invariant :
    (∀ (m : FixedMethod) (rhs : RhsFn) (params : Params) (isBad : ℚ → Bool)
       (dt scale : ℚ) (steps burn_in : ℕ) (p0 : Vec3) (out : Traj),
       fixedGen m rhs params isBad dt scale steps burn_in p0 = .ok out →
       out.raw.length = out.rawDts.length ∧ out.raw.head? = some p0 ∧
         ∀ v ∈ out.raw.drop 1, badVec isBad v = false)
    ∧ (∀ (stepper : AdStepper) (rhs : RhsFn) (params : Params) (isBad : ℚ → Bool)
        (tol mind maxd scale dt0 : ℚ) (burn_in steps : ℕ) (p0 : Vec3) (fuel : ℕ)
        (out : Traj),
        adaptiveGen stepper rhs params isBad tol mind maxd scale dt0 burn_in steps p0 fuel =
          .ok (some out) →
        out.raw.length = out.rawDts.length ∧ out.raw.head? = some p0 ∧
          ∀ v ∈ out.raw.drop 1, badVec isBad v = false) := by
  constructor
  · intro m rhs params isBad dt scale steps burn_in p0 out h
    cases hgo : fixedGo (fixedStep1 m rhs params dt) isBad dt scale burn_in
        (steps + burn_in) 0 p0 with
    | error e => rw [fixedGen, hgo] at h; simp at h
    | ok trip =>
      obtain ⟨raw, dts, pts⟩ := trip
      rw [fixedGen, hgo] at h
      simp only [exceptBind_ok, Except.ok.injEq] at h
      obtain ⟨hlen, _, hgood⟩ := fixedGo_ok_inv (fixedStep1 m rhs params dt) isBad dt scale
        burn_in (steps + burn_in) 0 p0 raw dts pts hgo
      subst h
      exact ⟨by simp [hlen], by simp, by simpa using hgood⟩
  · intro stepper rhs params isBad tol mind maxd scale dt0 burn_in steps p0 fuel out h
    cases hgo : adaptiveGo stepper rhs params isBad tol mind maxd scale burn_in steps
        fuel 0 0 dt0 p0 with
    | error e => rw [adaptiveGen, hgo] at h; simp at h
    | ok orr =>
      cases orr with
      | none => rw [adaptiveGen, hgo] at h; simp at h
      | some trip =>
        obtain ⟨raw, dts, pts⟩ := trip
        rw [adaptiveGen, hgo] at h
        simp only [Except.ok.injEq, Option.some.injEq] at h
        obtain ⟨hlen, _, hgood, _⟩ := adaptiveGo_ok_inv stepper rhs params isBad tol mind
          maxd scale burn_in steps fuel 0 0 dt0 p0 raw dts pts hgo
        subst h
        exact ⟨by simp [hlen], by simp, by simpa using hgood⟩

/-- C4 witness: the amended invariant at a concrete completed run. -/
theorem c4_witness :
    (⟨[⟨3, 0, 0⟩, ⟨4, 0, 0⟩], [0, 1], [⟨8, 0, 0⟩]⟩ : Traj).raw.length =
      (⟨[⟨3, 0, 0⟩, ⟨4, 0, 0⟩], [0, 1], [⟨8, 0, 0⟩]⟩ : Traj).rawDts.length
    ∧ (⟨[⟨3, 0, 0⟩, ⟨4, 0, 0⟩], [0, 1], [⟨8, 0, 0⟩]⟩ : Traj).raw.head? = some ⟨3, 0, 0⟩
    ∧ ∀ v ∈ (⟨[⟨3, 0, 0⟩, ⟨4, 0, 0⟩], [0, 1], [⟨8, 0, 0⟩]⟩ : Traj).raw.drop 1,
        badVec (fun _ => false) v = false := by
  exact c4_amended_trajectory_invariant.1 FixedMethod.EULER
    (pureRhs (fun _ _ => ⟨1, 0, 0⟩)) [] (fun _ => false) 1 2 1 0 ⟨3, 0, 0⟩
    ⟨[⟨3, 0, 0⟩, ⟨4, 0, 0⟩], [0, 1], [⟨8, 0, 0⟩]⟩
    (by norm_num [fixedGen, fixedGo, fixedStep1, pickFixed, step_euler, pureRhs, badVec])

/-! ## Claim C6 -/

theorem map_const_eq_replicate (dt : ℚ) (l : List Vec3) :
    l.map (fun _ => dt) = List.replicate l.length dt := by
  induction l with
  | nil => rfl
  | cons a l ih => simp [ih, List.replicate_succ]

/-- The records of a pure fixed-mode run started at loop index 0: exactly
the iterates `burn_in + 1, ..., burn_in + steps`. -/
theorem recList_start (F : Vec3 → Vec3) (burn_in steps : ℕ) (p0 : Vec3) :
    recList F burn_in (steps + burn_in) 0 p0 =
      (List.range steps).map (fun j => iterStep F (burn_in + j + 1) p0) := by
  rw [recList_eq_filter_range]
  have hsplit : List.range (steps + burn_in) =
      List.range burn_in ++ (List.range steps).map (burn_in + ·) := by
    rw [Nat.add_comm steps burn_in]; exact List.range_add burn_in steps
  rw [hsplit, List.filter_append]
  have h1 : (List.range burn_in).filter (fun j => burn_in ≤ 0 + j) = [] := by
    rw [List.filter_eq_nil_iff]
    intro a ha
    have := List.mem_range.mp ha
    simp only [Nat.zero_add, decide_eq_true_eq]
    omega
  have h2 : ((List.range steps).map (burn_in + ·)).filter (fun j => burn_in ≤ 0 + j) =
      (List.range steps).map (burn_in + ·) := by
    rw [List.filter_eq_self]
    intro a ha
    obtain ⟨b, _, rfl⟩ := List.mem_map.mp ha
    simp only [Nat.zero_add, decide_eq_true_eq]
    omega
  rw [h1, h2, List.nil_append, List.map_map]
  exact List.map_congr_left (fun j _ => by simp [Function.comp])

/-- C6 (confirmed): a fixed-mode run over a field whose stepper is exact
with advance map `F` and whose `steps + burn_in` iterates all pass the
instability check completes normally; the recorded points are verbatim the
iterates numbered past the burn-in, each paired with the constant `dt`
(`_raw_dts` is `0.0` followed by `steps` copies of `dt`), and exactly
`steps` points are recorded. -/
theorem c6_fixed_mode_counts (m : FixedMethod) (rhs : RhsFn) (params : Params)
    (isBad : ℚ → Bool) (dt scale : ℚ) (steps burn_in : ℕ) (p0 : Vec3) (F : Vec3 → Vec3)
    (hF : ∀ q, fixedStep1 m rhs params dt q = .ok (F q))
    (hgood : ∀ j < steps + burn_in, badVec isBad (iterStep F (j + 1) p0) = false) :
    fixedGen m rhs params isBad dt scale steps burn_in p0 =
      .ok ⟨p0 :: (List.range steps).map (fun j => iterStep F (burn_in + j + 1) p0),
           0 :: List.replicate steps dt,
           (List.range steps).map (fun j => scale • iterStep F (burn_in + j + 1) p0)⟩
    ∧ ((List.range steps).map (fun j => scale • iterStep F (burn_in + j + 1) p0)).length
        = steps := by
  have h := fixedGo_pure (fixedStep1 m rhs params dt) isBad dt scale burn_in F hF
    (steps + burn_in) 0 p0 hgood
  rw [recList_start] at h
  constructor
  · rw [fixedGen, h]
    simp only [exceptBind_ok, Except.ok.injEq]
    have hlen : ((List.range steps).map
        (fun j => iterStep F (burn_in + j + 1) p0)).length = steps := by simp
    rw [map_const_eq_replicate, hlen, List.map_map]
    simp [Function.comp]
  · simp

/-- C6 witness: the count statement at a concrete two-step run with one
burn-in step of the constant field `(1, 0, 0)` under Euler. -/
theorem c6_witness :
    fixedGen FixedMethod.EULER (pureRhs (fun _ _ => ⟨1, 0, 0⟩)) [] (fun _ => false)
      1 1 2 1 ⟨0, 0, 0⟩ =
      Except.ok ⟨⟨0, 0, 0⟩ :: (List.range 2).map
          (fun j => iterStep (fun q => q + (1 : ℚ) • ⟨1, 0, 0⟩) (1 + j + 1) ⟨0, 0, 0⟩),
        0 :: List.replicate 2 1,
        (List.range 2).map
          (fun j => (1 : ℚ) • iterStep (fun q => q + (1 : ℚ) • ⟨1, 0, 0⟩) (1 + j + 1)
            ⟨0, 0, 0⟩)⟩ := by
  exact (c6_fixed_mode_counts FixedMethod.EULER (pureRhs (fun _ _ => ⟨1, 0, 0⟩)) []
    (fun _ => false) 1 1 2 1 ⟨0, 0, 0⟩
    ((fun q => q + (1 : ℚ) • (⟨1, 0, 0⟩ : Vec3)) : Vec3 → Vec3)
    (fun q => rfl) (fun j _ => by simp [badVec])).1

/-! ## Claim C7 -/

/-- C7 (confirmed): on normal completion of either mode, the scaled list
handed onward is exactly the recorded raw points each multiplied by the
scale factor, and — whenever any point was recorded — the rendering hand-off
subtracts the centroid of that scaled sequence from every element.  The
centering branch is unconditional for nonempty recordings. -/
theorem c7_centering :
    (∀ (m : FixedMethod) (rhs : RhsFn) (params : Params) (isBad : ℚ → Bool)
       (dt scale : ℚ) (steps burn_in : ℕ) (p0 : Vec3) (out : Traj),
       fixedGen m rhs params isBad dt scale steps burn_in p0 = .ok out →
       out.pts = (out.raw.drop 1).map (fun v => scale • v) ∧
         (out.pts ≠ [] →
           renderPoints out.pts =
             some ((out.raw.drop 1).map (fun v =>
               scale • v - centroid ((out.raw.drop 1).map (fun w => scale • w))))))
    ∧ (∀ (stepper : AdStepper) (rhs : RhsFn) (params : Params) (isBad : ℚ → Bool)
        (tol mind maxd scale dt0 : ℚ) (burn_in steps : ℕ) (p0 : Vec3) (fuel : ℕ)
        (out : Traj),
        adaptiveGen stepper rhs params isBad tol mind maxd scale dt0 burn_in steps p0 fuel =
          .ok (some out) →
        out.pts = (out.raw.drop 1).map (fun v => scale • v) ∧
          (out.pts ≠ [] →
            renderPoints out.pts =
              some ((out.raw.drop 1).map (fun v =>
                scale • v - centroid ((out.raw.drop 1).map (fun w => scale • w)))))) := by
  constructor
  · intro m rhs params isBad dt scale steps burn_in p0 out h
    cases hgo : fixedGo (fixedStep1 m rhs params dt) isBad dt scale burn_in
        (steps + burn_in) 0 p0 with
    | error e => rw [fixedGen, hgo] at h; simp at h
    | ok trip =>
      obtain ⟨raw, dts, pts⟩ := trip
      rw [fixedGen, hgo] at h
      simp only [exceptBind_ok, Except.ok.injEq] at h
      obtain ⟨_, hmap, _⟩ := fixedGo_ok_inv (fixedStep1 m rhs params dt) isBad dt scale
        burn_in (steps + burn_in) 0 p0 raw dts pts hgo
      subst h
      have hpts : (⟨p0 :: raw, 0 :: dts, pts⟩ : Traj).pts =
          ((⟨p0 :: raw, 0 :: dts, pts⟩ : Traj).raw.drop 1).map (fun v => scale • v) := by
        simpa using hmap
      refine ⟨hpts, fun hne => ?_⟩
      rw [renderPoints, if_neg (by simpa [List.isEmpty_iff] using hne)]
      rw [hpts, List.map_map]
      rfl
  · intro stepper rhs params isBad tol mind maxd scale dt0 burn_in steps p0 fuel out h
    cases hgo : adaptiveGo stepper rhs params isBad tol mind maxd scale burn_in steps
        fuel 0 0 dt0 p0 with
    | error e => rw [adaptiveGen, hgo] at h; simp at h
    | ok orr =>
      cases orr with
      | none => rw [adaptiveGen, hgo] at h; simp at h
      | some trip =>
        obtain ⟨raw, dts, pts⟩ := trip
        rw [adaptiveGen, hgo] at h
        simp only [Except.ok.injEq, Option.some.injEq] at h
        obtain ⟨_, hmap, _, _⟩ := adaptiveGo_ok_inv stepper rhs params isBad tol mind maxd
          scale burn_in steps fuel 0 0 dt0 p0 raw dts pts hgo
        subst h
        have hpts : (⟨p0 :: raw, 0 :: dts, pts⟩ : Traj).pts =
            ((⟨p0 :: raw, 0 :: dts, pts⟩ : Traj).raw.drop 1).map (fun v => scale • v) := by
          simpa using hmap
        refine ⟨hpts, fun hne => ?_⟩
        rw [renderPoints, if_neg (by simpa [List.isEmpty_iff] using hne)]
        rw [hpts, List.map_map]
        rfl

/-- C7 witness: the centering equation at a concrete one-step run with
scale 2 (the recorded point `(1,0,0)` scales to `(2,0,0)`, whose centroid is
itself, so the rendered output is the origin). -/
theorem c7_witness :
    (⟨[⟨0, 0, 0⟩, ⟨1, 0, 0⟩], [0, 1], [⟨2, 0, 0⟩]⟩ : Traj).pts =
      ((⟨[⟨0, 0, 0⟩, ⟨1, 0, 0⟩], [0, 1], [⟨2, 0, 0⟩]⟩ : Traj).raw.drop 1).map
        (fun v => (2 : ℚ) • v)
    ∧ ((⟨[⟨0, 0, 0⟩, ⟨1, 0, 0⟩], [0, 1], [⟨2, 0, 0⟩]⟩ : Traj).pts ≠ [] →
        renderPoints (⟨[⟨0, 0, 0⟩, ⟨1, 0, 0⟩], [0, 1], [⟨2, 0, 0⟩]⟩ : Traj).pts =
          some (((⟨[⟨0, 0, 0⟩, ⟨1, 0, 0⟩], [0, 1], [⟨2, 0, 0⟩]⟩ : Traj).raw.drop 1).map
            (fun v => (2 : ℚ) • v -
              centroid (((⟨[⟨0, 0, 0⟩, ⟨1, 0, 0⟩], [0, 1], [⟨2, 0, 0⟩]⟩ : Traj).raw.drop
                1).map (fun w => (2 : ℚ) • w))))) := by
  exact c7_centering.1 FixedMethod.EULER (pureRhs (fun _ _ => ⟨1, 0, 0⟩)) []
    (fun _ => false) 1 2 1 0 ⟨0, 0, 0⟩ ⟨[⟨0, 0, 0⟩, ⟨1, 0, 0⟩], [0, 1], [⟨2, 0, 0⟩]⟩
    (by norm_num [fixedGen, fixedGo, fixedStep1, pickFixed, step_euler, pureRhs, badVec])

/-! ## Claim C5 -/

/-- The embedded 4th/5th-order RKF45 solution pair (in the stage arithmetic
of `step_rkf45`), for an exact field `f`. -/
def rkf45Pair (f : Vec3 → Params → Vec3) (p : Vec3) (params : Params) (current_dt : ℚ) :
    Vec3 × Vec3 :=
  let k1 := f p params
  let k2 := f (p + (1/4 * current_dt) • k1) params
  let k3 := f (p + current_dt • ((3/32 : ℚ) • k1 + (9/32 : ℚ) • k2)) params
  let k4 := f (p + current_dt •
    ((1932/2197 : ℚ) • k1 + (-7200/2197 : ℚ) • k2 + (7296/2197 : ℚ) • k3)) params
  let k5 := f (p + current_dt •
    ((439/216 : ℚ) • k1 + (-8 : ℚ) • k2 + (3680/513 : ℚ) • k3 + (-845/4104 : ℚ) • k4))
    params
  let k6 := f (p + current_dt •
    ((-8/27 : ℚ) • k1 + (2 : ℚ) • k2 + (-3544/2565 : ℚ) • k3 + (1859/4104 : ℚ) • k4 +
      (-11/40 : ℚ) • k5)) params
  let y4 := p + current_dt •
    ((25/216 : ℚ) • k1 + (1408/2565 : ℚ) • k3 + (2197/4104 : ℚ) • k4 + (-1/5 : ℚ) • k5)
  let y5 := p + current_dt •
    ((16/135 : ℚ) • k1 + (6656/12825 : ℚ) • k3 + (28561/56430 : ℚ) • k4 +
      (-9/50 : ℚ) • k5 + (2/55 : ℚ) • k6)
  (y4, y5)

/-- The embedded 4th/5th-order Dormand–Prince solution pair (the 4th-order
solution assembled from the `B_star` row, including the FSAL stage `k7`),
for an exact field `f`. -/
def dp5Pair (f : Vec3 → Params → Vec3) (p : Vec3) (params : Params) (current_dt : ℚ) :
    Vec3 × Vec3 :=
  let k1 := f p params
  let k2 := f (p + (current_dt * (1/5)) • k1) params
  let k3 := f (p + current_dt • ((3/40 : ℚ) • k1 + (9/40 : ℚ) • k2)) params
  let k4 := f (p + current_dt •
    ((44/45 : ℚ) • k1 + (-56/15 : ℚ) • k2 + (32/9 : ℚ) • k3)) params
  let k5 := f (p + current_dt •
    ((19372/6561 : ℚ) • k1 + (-25360/2187 : ℚ) • k2 + (64448/6561 : ℚ) • k3 +
      (-212/729 : ℚ) • k4)) params
  let k6 := f (p + current_dt •
    ((9017/3168 : ℚ) • k1 + (-355/33 : ℚ) • k2 + (46732/5247 : ℚ) • k3 +
      (49/176 : ℚ) • k4 + (-5103/18656 : ℚ) • k5)) params
  let y5 := p + current_dt •
    ((35/384 : ℚ) • k1 + (0 : ℚ) • k2 + (500/1113 : ℚ) • k3 + (125/192 : ℚ) • k4 +
      (-2187/6784 : ℚ) • k5 + (11/84 : ℚ) • k6)
  let k7 := f y5 params
  let y4 := p + current_dt •
    ((5179/57600 : ℚ) • k1 + (0 : ℚ) • k2 + (7571/16695 : ℚ) • k3 + (393/640 : ℚ) • k4 +
      (-92097/339200 : ℚ) • k5 + (187/2100 : ℚ) • k6 + (1/40 : ℚ) • k7)
  (y4, y5)

/-- The step-size controller shared by both adaptive steppers, phrased as
the specification describes it: error = Euclidean norm of the difference of
the embedded pair, floored at `1e-20`; suggested step
`0.9 * current_dt * (tolerance / error) ** 0.2`; acceptance iff
`error <= tolerance`, returning the 5th-order point on acceptance and the
*unchanged* input point on rejection. -/
def adaptiveDecision (sq : ℚ → ℚ) (rp : ℚ → ℚ → ℚ) (p : Vec3) (current_dt tolerance : ℚ)
    (pair : Vec3 × Vec3) : Vec3 × ℚ × Bool :=
  let error := max (vlen sq (pair.1 - pair.2)) (1/10^20)
  let optimal_dt := 9/10 * current_dt * rp (tolerance / error) (1/5)
  if error ≤ tolerance then (pair.2, optimal_dt, true) else (p, optimal_dt, false)

/-- `step_rkf45` on a field that evaluates exactly (under the supplied
parameter set) is the controller applied to the embedded RKF45 pair. -/
theorem step_rkf45_eq_of_ok (sq : ℚ → ℚ) (rp : ℚ → ℚ → ℚ) (rhs : RhsFn)
    (f : Vec3 → Params → Vec3) (p : Vec3) (params : Params) (dt tol : ℚ)
    (hrhs : ∀ q, rhs q params = .ok (f q params)) :
    step_rkf45 sq rp rhs p params dt tol =
      .ok (adaptiveDecision sq rp p dt tol (rkf45Pair f p params dt)) := by
  simp only [step_rkf45, hrhs, exceptBind_ok, rkf45Pair, adaptiveDecision, max_def]
  split_ifs <;> rfl

/-- The squared norm of the Dormand–Prince error vector of `step_dp5` is
exactly that of the difference of the embedded pair (`B_star` row minus `B`
row): the coded `current_dt * sum((b - bs) * k)` is `y5 - y4`. -/
theorem dp5_error_dot_eq (p k1 k2 k3 k4 k5 k6 k7 : Vec3) (dt : ℚ) :
    Vec3.dot
      (dt • ((35/384 - 5179/57600 : ℚ) • k1 + (0 - 0 : ℚ) • k2 +
        (500/1113 - 7571/16695 : ℚ) • k3 + (125/192 - 393/640 : ℚ) • k4 +
        (-2187/6784 - -92097/339200 : ℚ) • k5 + (11/84 - 187/2100 : ℚ) • k6 +
        (0 - 1/40 : ℚ) • k7))
      (dt • ((35/384 - 5179/57600 : ℚ) • k1 + (0 - 0 : ℚ) • k2 +
        (500/1113 - 7571/16695 : ℚ) • k3 + (125/192 - 393/640 : ℚ) • k4 +
        (-2187/6784 - -92097/339200 : ℚ) • k5 + (11/84 - 187/2100 : ℚ) • k6 +
        (0 - 1/40 : ℚ) • k7)) =
    Vec3.dot
      ((p + dt • ((5179/57600 : ℚ) • k1 + (0 : ℚ) • k2 + (7571/16695 : ℚ) • k3 +
        (393/640 : ℚ) • k4 + (-92097/339200 : ℚ) • k5 + (187/2100 : ℚ) • k6 +
        (1/40 : ℚ) • k7)) -
       (p + dt • ((35/384 : ℚ) • k1 + (0 : ℚ) • k2 + (500/1113 : ℚ) • k3 +
        (125/192 : ℚ) • k4 + (-2187/6784 : ℚ) • k5 + (11/84 : ℚ) • k6)))
      ((p + dt • ((5179/57600 : ℚ) • k1 + (0 : ℚ) • k2 + (7571/16695 : ℚ) • k3 +
        (393/640 : ℚ) • k4 + (-92097/339200 : ℚ) • k5 + (187/2100 : ℚ) • k6 +
        (1/40 : ℚ) • k7)) -
       (p + dt • ((35/384 : ℚ) • k1 + (0 : ℚ) • k2 + (500/1113 : ℚ) • k3 +
        (125/192 : ℚ) • k4 + (-2187/6784 : ℚ) • k5 + (11/84 : ℚ) • k6))) := by
  simp [Vec3.dot]
  ring

/-- `step_dp5` on a field that evaluates exactly is the same controller
applied to the embedded Dormand–Prince pair: in exact arithmetic the coded
error vector `current_dt * sum((b - bs) * k)` *is* the difference of the two
embedded solutions. -/
theorem step_dp5_eq_of_ok (sq : ℚ → ℚ) (rp : ℚ → ℚ → ℚ) (rhs : RhsFn)
    (f : Vec3 → Params → Vec3) (p : Vec3) (params : Params) (dt tol : ℚ)
    (hrhs : ∀ q, rhs q params = .ok (f q params)) :
    step_dp5 sq rp rhs p params dt tol =
      .ok (adaptiveDecision sq rp p dt tol (dp5Pair f p params dt)) := by
  simp only [step_dp5, hrhs, exceptBind_ok, dp5Pair, adaptiveDecision, max_def, vlen]
  rw [dp5_error_dot_eq p]
  split_ifs <;> rfl

/-- C5 (confirmed): for every field (exact under the given parameters),
point, positive step and tolerance, both adaptive steppers return the
shared controller decision on their embedded solution pair: the error is
the Euclidean norm of the pair's difference floored at `1e-20`, the
suggested step is `0.9 * current_dt * (tolerance / error) ** 0.2`, and the
step is accepted with the 5th-order point iff `error <= tolerance`, the
unchanged input point being returned otherwise. -/
theorem c5_adaptive_controller (sq : ℚ → ℚ) (rp : ℚ → ℚ → ℚ)
    (f : Vec3 → Params → Vec3) (p : Vec3) (params : Params) (dt tol : ℚ)
    (hdt : 0 < dt) (htol : 0 < tol) :
    step_rkf45 sq rp (pureRhs f) p params dt tol =
      .ok (adaptiveDecision sq rp p dt tol (rkf45Pair f p params dt))
    ∧ step_dp5 sq rp (pureRhs f) p params dt tol =
      .ok (adaptiveDecision sq rp p dt tol (dp5Pair f p params dt)) :=
  ⟨step_rkf45_eq_of_ok sq rp (pureRhs f) f p params dt tol (fun _ => rfl),
   step_dp5_eq_of_ok sq rp (pureRhs f) f p params dt tol (fun _ => rfl)⟩

/-- C5 witness: the controller shape at a concrete configuration (zero
field, unit step and tolerance). -/
theorem c5_witness :
    step_rkf45 ratSqrt ratRpow (pureRhs (fun _ _ => 0)) ⟨0, 0, 0⟩ [] 1 1 =
      Except.ok (adaptiveDecision ratSqrt ratRpow ⟨0, 0, 0⟩ 1 1
        (rkf45Pair (fun _ _ => 0) ⟨0, 0, 0⟩ [] 1))
    ∧ step_dp5 ratSqrt ratRpow (pureRhs (fun _ _ => 0)) ⟨0, 0, 0⟩ [] 1 1 =
      Except.ok (adaptiveDecision ratSqrt ratRpow ⟨0, 0, 0⟩ 1 1
        (dp5Pair (fun _ _ => 0) ⟨0, 0, 0⟩ [] 1)) :=
  c5_adaptive_controller ratSqrt ratRpow (fun _ _ => 0) ⟨0, 0, 0⟩ [] 1 1 (by norm_num)
    (by norm_num)

/-! ## Claim C10 -/

/-- The tree parsed from the expression string `a*x`. -/
def treeAX : PyAst := .expression (.binOp (.name "a") .mult (.name "x"))

/-- The float `**` reference instantiation returns its junk value on the
fractional controller exponent `0.2`. -/
theorem ratRpow_fifth (a : ℚ) : ratRpow a (1/5) = 0 := by
  rw [ratRpow, if_neg]
  norm_num

/-- The compiled field `(a*x, 0, 0)` with parameter `a = 10` is the linear
field `p ↦ (10 p.x, 0, 0)`. -/
theorem rhs_treeAX (p : Vec3) :
    rhsFromTrees fsDefault treeAX treeZero treeZero p [("a", 10)] =
      Except.ok ⟨10 * p.x, 0, 0⟩ := by
  simp [rhsFromTrees, runCompiled, treeAX, treeZero, _eval_ast, mkEnv, List.lookup]

/-- At `x = 1`, `dt = 1` the RKF45 embedded pair for the field
`(10x, 0, 0)` differs by `13750/39` in the first coordinate, which exceeds
the tolerance `1e-10`: the step is rejected, the state is unchanged, and the
suggested next step (through the junk fractional power) is 0. -/
theorem c10_reject_step :
    step_rkf45 ratSqrt ratRpow (rhsFromTrees fsDefault treeAX treeZero treeZero)
      ⟨1, 0, 0⟩ [("a", 10)] 1 (1/10^10) = Except.ok (⟨1, 0, 0⟩, 0, false) := by
  have hrs : ratSqrt (189062500/1521) = 13750/39 := by
    rw [show (189062500/1521 : ℚ) = (13750/39) * (13750/39) by norm_num,
      ratSqrt_mul_self]
    norm_num
  rw [step_rkf45_eq_of_ok ratSqrt ratRpow _ (fun q _ => ⟨10 * q.x, 0, 0⟩) ⟨1, 0, 0⟩
    [("a", 10)] 1 (1/10^10) (fun q => rhs_treeAX q)]
  have hpair : rkf45Pair (fun q _ => ⟨10 * q.x, 0, 0⟩) ⟨1, 0, 0⟩ [("a", 10)] 1 =
      (⟨62629/39, 0, 0⟩, ⟨76379/39, 0, 0⟩) := by
    norm_num [rkf45Pair]
  rw [hpair]
  simp only [adaptiveDecision]
  norm_num [vlen, Vec3.dot, hrs, ratRpow_fifth, max_def]

/-- With `min_dt = max_dt = 1` the working `dt` always clamps back to 1, so
after the first rejection the loop state repeats verbatim and the loop never
settles, whatever the fuel. -/
theorem c10_loop_stuck :
    ∀ (fuel : ℕ) (d : ℚ),
      adaptiveGo (step_rkf45 ratSqrt ratRpow)
        (rhsFromTrees fsDefault treeAX treeZero treeZero) [("a", 10)] (fun _ => false)
        (1/10^10) 1 1 1 0 1 fuel 0 0 d ⟨1, 0, 0⟩ = Except.ok none := by
  intro fuel
  induction fuel with
  | zero => intro d; rfl
  | succ fuel ih =>
    intro d
    have hd : max 1 (min 1 d) = 1 := max_eq_left (min_le_left 1 d)
    rw [adaptiveGo, if_neg (by omega : ¬ (1:ℕ) ≤ 0)]
    simp only [hd, c10_reject_step]
    simpa using ih 0

/-- C10 counterexample: for the compiled field `(a*x, 0, 0)` with `a = 10`,
initial point `(1,0,0)`, tolerance `1e-10`, `min_dt = max_dt = dt = 1`,
one requested step and no burn-in, the adaptive RKF45 loop rejects the
clamped step, re-clamps the shrunken suggestion back to the same `dt`, and
repeats the identical attempt forever: no fuel bound makes the run settle
(`ok none` for every fuel), so the loop does not terminate. -/
theorem c10_counterexample :
    ¬ ∃ fuel : ℕ,
      adaptiveGen (step_rkf45 ratSqrt ratRpow)
        (rhsFromTrees fsDefault treeAX treeZero treeZero) [("a", 10)] (fun _ => false)
        (1/10^10) 1 1 1 1 0 1 ⟨1, 0, 0⟩ fuel ≠ Except.ok none := by
  rintro ⟨fuel, hne⟩
  apply hne
  rw [adaptiveGen, c10_loop_stuck fuel 1]

/-- C10 (amended): the adaptive loop is *not* guaranteed to terminate — a
rejected attempt at a clamped step size repeats forever (see the
counterexample) — but whenever every attempted step is accepted, fuel
exceeding `steps + burn_in` suffices: the run then either raises or settles,
and a settled run records exactly the requested number of points. -/
theorem c10_amended_termination_needs_acceptance
    (stepper : AdStepper) (rhs : RhsFn) (params : Params) (isBad : ℚ → Bool)
    (tol mind maxd scale dt0 : ℚ) (burn_in steps fuel : ℕ) (p0 : Vec3)
    (hacc : ∀ (p : Vec3) (d : ℚ), ∃ pn ndt,
      stepper rhs p params d tol = .ok (pn, ndt, true))
    (hfuel : steps + burn_in < fuel) :
    adaptiveGen stepper rhs params isBad tol mind maxd scale dt0 burn_in steps p0 fuel ≠
      Except.ok none
    ∧ ∀ out : Traj,
        adaptiveGen stepper rhs params isBad tol mind maxd scale dt0 burn_in steps p0 fuel =
          .ok (some out) → out.pts.length = steps := by
  constructor
  · intro hcontra
    cases hgo : adaptiveGo stepper rhs params isBad tol mind maxd scale burn_in steps
        fuel 0 0 dt0 p0 with
    | error e => rw [adaptiveGen, hgo] at hcontra; simp at hcontra
    | ok orr =>
      cases orr with
      | none =>
        exact adaptiveGo_progress stepper rhs params isBad tol mind maxd scale burn_in
          steps hacc fuel 0 0 dt0 p0 (by omega) hgo
      | some trip =>
        obtain ⟨raw, dts, pts⟩ := trip
        rw [adaptiveGen, hgo] at hcontra
        simp at hcontra
  · intro out hout
    cases hgo : adaptiveGo stepper rhs params isBad tol mind maxd scale burn_in steps
        fuel 0 0 dt0 p0 with
    | error e => rw [adaptiveGen, hgo] at hout; simp at hout
    | ok orr =>
      cases orr with
      | none => rw [adaptiveGen, hgo] at hout; simp at hout
      | some trip =>
        obtain ⟨raw, dts, pts⟩ := trip
        rw [adaptiveGen, hgo] at hout
        simp only [Except.ok.injEq, Option.some.injEq] at hout
        obtain ⟨_, _, _, hcnt⟩ := adaptiveGo_ok_inv stepper rhs params isBad tol mind maxd
          scale burn_in steps fuel 0 0 dt0 p0 raw dts pts hgo
        subst hout
        simpa using hcnt

/-- C10 witness: the amended statement for RKF45 on the identically-zero
field (every attempt is accepted) with two requested steps and ample fuel. -/
theorem c10_witness :
    adaptiveGen (step_rkf45 ratSqrt ratRpow) (pureRhs (fun _ _ => 0)) [] (fun _ => false)
      1 (1/100) 1 1 (1/100) 0 2 ⟨0, 0, 0⟩ 4 ≠ Except.ok none := by
  refine (c10_amended_termination_needs_acceptance (step_rkf45 ratSqrt ratRpow)
    (pureRhs (fun _ _ => 0)) [] (fun _ => false) 1 (1/100) 1 1 (1/100) 0 2 4 ⟨0, 0, 0⟩
    (fun p d => ?_) (by omega)).1
  exact ⟨p, 9/10 * d * ratRpow (1 / (1/10^20)) (1/5),
    step_rkf45_zero_field ratSqrt ratRpow ratSqrt_zero p [] d 1 (by norm_num)⟩

/-! ## Claim C9 -/

/-- The output loop of `_resample_even` appends exactly one point per
iteration of `for k in range(m)`. -/
theorem resampleGo_length (points : List Vec3) (cum : List ℚ) (n m : ℕ) :
    ∀ (rem k j : ℕ), (resampleGo points cum n m rem k j).length = rem := by
  intro rem
  induction rem with
  | zero => intro k j; rfl
  | succ rem ih => intro k j; simp [resampleGo, ih]

/-- A dense Bezier polyline with at least one segment is nonempty (the
first segment contributes its `s = 0` sample). -/
theorem bezierDense_ne_nil (bps : List BezierPoint) (segs steps : ℕ)
    (hsegs : 1 ≤ segs) : bezierDense bps segs steps ≠ [] := by
  intro hcontra
  simp only [bezierDense, List.flatten_eq_nil_iff] at hcontra
  have hmem0 : (0 : ℕ) ∈ List.range segs := List.mem_range.mpr (by omega)
  have h0 := hcontra _ (List.mem_map_of_mem _ hmem0)
  simp only [List.filterMap_eq_nil_iff] at h0
  have h00 := h0 0 (List.mem_range.mpr (by omega))
  simp at h00

/-- Structural unfolding of `_sample_bezier_uniform` in the non-degenerate
case: densify then resample. -/
theorem sample_some_eq (sq : ℚ → ℚ) (sp : BezierSpline) (tc cap : ℕ)
    (hlen : 2 ≤ sp.bezier_points.length) (htc : 2 ≤ tc) :
    _sample_bezier_uniform sq (some sp) tc cap =
      some (_resample_even sq
        (bezierDense sp.bezier_points
          (sp.bezier_points.length - (if sp.use_cyclic_u then 0 else 1))
          (max 4 (cap / (sp.bezier_points.length -
            (if sp.use_cyclic_u then 0 else 1))))) tc) := by
  have hcond : ¬ (sp.bezier_points.length < 2 ∨ tc < 2) := by omega
  have hsegs : 1 ≤ sp.bezier_points.length - (if sp.use_cyclic_u then 0 else 1) := by
    split <;> omega
  simp only [_sample_bezier_uniform]
  rw [if_neg hcond, if_neg (by omega : ¬ (sp.bezier_points.length -
    (if sp.use_cyclic_u then 0 else 1)) = 0)]
  rw [if_neg (by
    simpa [List.isEmpty_iff] using bezierDense_ne_nil sp.bezier_points _ _ hsegs)]

/-- C9 counterexample: a two-anchor (single-segment) spline densified with
`dense_cap = 5` yields a 6-point dense polyline; requesting
`target_count = 10 >= 6` makes `_resample_even` return the dense polyline
verbatim, so the result has 6 points, not the requested 10. -/
theorem c9_counterexample :
    _sample_bezier_uniform ratSqrt
      (some ⟨[⟨⟨0, 0, 0⟩, ⟨0, 0, 0⟩, ⟨0, 0, 0⟩⟩, ⟨⟨0, 0, 0⟩, ⟨0, 0, 0⟩, ⟨0, 0, 0⟩⟩],
        false⟩) 10 5 =
      some [⟨0, 0, 0⟩, ⟨0, 0, 0⟩, ⟨0, 0, 0⟩, ⟨0, 0, 0⟩, ⟨0, 0, 0⟩, ⟨0, 0, 0⟩]
    ∧ ([⟨0, 0, 0⟩, ⟨0, 0, 0⟩, ⟨0, 0, 0⟩, ⟨0, 0, 0⟩, ⟨0, 0, 0⟩,
        ⟨0, 0, 0⟩] : List Vec3).length ≠ 10 := by
  constructor
  · have h := sample_some_eq ratSqrt
      ⟨[⟨⟨0, 0, 0⟩, ⟨0, 0, 0⟩, ⟨0, 0, 0⟩⟩, ⟨⟨0, 0, 0⟩, ⟨0, 0, 0⟩, ⟨0, 0, 0⟩⟩], false⟩
      10 5 (by norm_num) (by norm_num)
    norm_num at h
    have hr1 : List.range 1 = [0] := rfl
    have hr6 : List.range 6 = [0, 1, 2, 3, 4, 5] := rfl
    have hd : bezierDense
        [⟨⟨0, 0, 0⟩, ⟨0, 0, 0⟩, ⟨0, 0, 0⟩⟩, ⟨⟨0, 0, 0⟩, ⟨0, 0, 0⟩, ⟨0, 0, 0⟩⟩] 1 5 =
        [⟨0, 0, 0⟩, ⟨0, 0, 0⟩, ⟨0, 0, 0⟩, ⟨0, 0, 0⟩, ⟨0, 0, 0⟩, ⟨0, 0, 0⟩] := by
      norm_num [bezierDense, cubic, lerp, hr1, hr6, List.filterMap_cons,
        List.filterMap_nil]
    rw [hd] at h
    have hres : _resample_even ratSqrt
        [⟨0, 0, 0⟩, ⟨0, 0, 0⟩, ⟨0, 0, 0⟩, ⟨0, 0, 0⟩, ⟨0, 0, 0⟩, ⟨0, 0, 0⟩] 10 =
        [⟨0, 0, 0⟩, ⟨0, 0, 0⟩, ⟨0, 0, 0⟩, ⟨0, 0, 0⟩, ⟨0, 0, 0⟩, ⟨0, 0, 0⟩] := by
      simp only [_resample_even]
      rw [if_pos (by norm_num)]
    rw [hres] at h
    exact h
  · simp

/-- C9 (amended): `sample_uniform` yields no result for a missing/non-Bezier
spline, fewer than 2 anchors, or `target_count < 2`; otherwise it densifies
each of the `segs` cubic segments at `max 4 (dense_cap / segs)` steps and
hands the dense polyline to arc-length resampling.  The returned sequence
has exactly `target_count` points only when `2 <= target_count <
len(dense)` and the dense polyline's total chord length exceeds `1e-12`;
when `target_count >= len(dense)` (and in the other degenerate resampling
cases) the dense polyline is returned verbatim instead. -/
theorem c9_amended_sample_uniform (sq : ℚ → ℚ) :
    (∀ tc cap : ℕ, _sample_bezier_uniform sq none tc cap = none)
    ∧ (∀ (sp : BezierSpline) (tc cap : ℕ),
        sp.bezier_points.length < 2 ∨ tc < 2 →
        _sample_bezier_uniform sq (some sp) tc cap = none)
    ∧ (∀ (sp : BezierSpline) (tc cap : ℕ), 2 ≤ sp.bezier_points.length → 2 ≤ tc →
        _sample_bezier_uniform sq (some sp) tc cap =
          some (_resample_even sq
            (bezierDense sp.bezier_points
              (sp.bezier_points.length - (if sp.use_cyclic_u then 0 else 1))
              (max 4 (cap / (sp.bezier_points.length -
                (if sp.use_cyclic_u then 0 else 1))))) tc))
    ∧ (∀ (points : List Vec3) (m : ℕ), 2 ≤ points.length → 2 ≤ m →
        m < points.length → ¬ (resampleSegL sq points).sum ≤ 1/10^12 →
        (_resample_even sq points m).length = m)
    ∧ (∀ (points : List Vec3) (m : ℕ), points.length ≤ m →
        _resample_even sq points m = points) := by
  refine ⟨fun tc cap => rfl, ?_, ?_, ?_, ?_⟩
  · intro sp tc cap h
    simp only [_sample_bezier_uniform]
    rw [if_pos h]
  · intro sp tc cap hlen htc
    exact sample_some_eq sq sp tc cap hlen htc
  · intro points m h2 hm hmn htot
    have hcond : ¬ (points.length < 2 ∨ m ≤ 1 ∨ points.length ≤ m) := by omega
    simp only [_resample_even]
    rw [if_neg hcond, if_neg htot]
    exact resampleGo_length points _ points.length m m 0 0
  · intro points m h
    simp only [_resample_even]
    rw [if_pos (Or.inr (Or.inr h))]

/-- C9 witness: a single straight cubic segment (handles at the thirds, so
the De Casteljau curve is the straight line) densified at 5 steps gives the
6 evenly spaced points `0, 1/5, ..., 1`; its total length is 1, and
resampling to `target_count = 3` returns exactly 3 points. -/
theorem c9_witness :
    ∃ l, _sample_bezier_uniform ratSqrt
      (some ⟨[⟨⟨0, 0, 0⟩, ⟨0, 0, 0⟩, ⟨1/3, 0, 0⟩⟩, ⟨⟨1, 0, 0⟩, ⟨2/3, 0, 0⟩, ⟨0, 0, 0⟩⟩],
        false⟩) 3 5 = some l ∧ l.length = 3 := by
  have h5 : ratSqrt (1/25) = 1/5 := by
    rw [show (1/25 : ℚ) = (1/5) * (1/5) by norm_num, ratSqrt_mul_self]
    norm_num
  have hr1 : List.range 1 = [0] := rfl
  have hr5 : List.range 5 = [0, 1, 2, 3, 4] := rfl
  have hr6 : List.range 6 = [0, 1, 2, 3, 4, 5] := rfl
  have hd : bezierDense
      [⟨⟨0, 0, 0⟩, ⟨0, 0, 0⟩, ⟨1/3, 0, 0⟩⟩, ⟨⟨1, 0, 0⟩, ⟨2/3, 0, 0⟩, ⟨0, 0, 0⟩⟩] 1 5 =
      [⟨0, 0, 0⟩, ⟨1/5, 0, 0⟩, ⟨2/5, 0, 0⟩, ⟨3/5, 0, 0⟩, ⟨4/5, 0, 0⟩, ⟨1, 0, 0⟩] := by
    norm_num [bezierDense, cubic, lerp, hr1, hr6, List.filterMap_cons,
      List.filterMap_nil]
  have h3 := (c9_amended_sample_uniform ratSqrt).2.2.1
    ⟨[⟨⟨0, 0, 0⟩, ⟨0, 0, 0⟩, ⟨1/3, 0, 0⟩⟩, ⟨⟨1, 0, 0⟩, ⟨2/3, 0, 0⟩, ⟨0, 0, 0⟩⟩], false⟩
    3 5 (by norm_num) (by norm_num)
  norm_num at h3
  rw [hd] at h3
  have htot : ¬ (resampleSegL ratSqrt
      [⟨0, 0, 0⟩, ⟨1/5, 0, 0⟩, ⟨2/5, 0, 0⟩, ⟨3/5, 0, 0⟩, ⟨4/5, 0, 0⟩,
        ⟨1, 0, 0⟩]).sum ≤ 1/10^12 := by
    norm_num [resampleSegL, vlen, Vec3.dot, hr5, h5]
  have hlen := (c9_amended_sample_uniform ratSqrt).2.2.2.1
    [⟨0, 0, 0⟩, ⟨1/5, 0, 0⟩, ⟨2/5, 0, 0⟩, ⟨3/5, 0, 0⟩, ⟨4/5, 0, 0⟩, ⟨1, 0, 0⟩] 3
    (by norm_num) (by norm_num) (by norm_num) htot
  exact ⟨_, h3, hlen⟩

/-! ## Claim C8 -/

/-- `headD` is `getD` at index 0. -/
theorem headD_eq_getD {α : Type} (l : List α) (d : α) : l.headD d = l.getD 0 d := by
  cases l <;> rfl

/-- `getLastD` is `getD` at the last index. -/
theorem getLastD_eq_getD {α : Type} (l : List α) (d : α) :
    l.getLastD d = l.getD (l.length - 1) d := by
  rw [List.getLastD_eq_getLast?, List.getLast?_eq_getElem?, List.getD_eq_getElem?_getD]

/-- Projecting the index out of the tagged interior list gives the indices back. -/
theorem map_fst_pairs (g : ℕ → Vec3) :
    ∀ (l : List ℕ), (l.map (fun i => (i, g i))).map Prod.fst = l := by
  intro l
  induction l with
  | nil => rfl
  | cons a t ih => simp [ih]

/-- A rational vector is zero iff its self-dot-product is zero. -/
theorem dot_self_eq_zero_iff (v : Vec3) : Vec3.dot v v = 0 ↔ v = 0 := by
  constructor
  · intro h
    simp only [Vec3.dot] at h
    have hx : v.x * v.x = 0 := by
      nlinarith [mul_self_nonneg v.x, mul_self_nonneg v.y, mul_self_nonneg v.z]
    have hy : v.y * v.y = 0 := by
      nlinarith [mul_self_nonneg v.x, mul_self_nonneg v.y, mul_self_nonneg v.z]
    have hz : v.z * v.z = 0 := by
      nlinarith [mul_self_nonneg v.x, mul_self_nonneg v.y, mul_self_nonneg v.z]
    ext
    · simpa using mul_self_eq_zero.mp hx
    · simpa using mul_self_eq_zero.mp hy
    · simpa using mul_self_eq_zero.mp hz
  · intro h
    subst h
    simp [Vec3.dot]

/-- A point that lies between the chord's endpoints on the same line has
point-to-segment distance zero (the clamped projection recovers the point). -/
theorem perpDist_on_line (a v : Vec3) (hv : v ≠ 0) (r s u : ℚ)
    (hrs : r < s) (h1 : r ≤ u) (h2 : u ≤ s) :
    perpDist ratSqrt (a + r • v) (a + s • v) (a + u • v) = 0 := by
  have hdvv0 : Vec3.dot v v ≠ 0 := fun h => hv ((dot_self_eq_zero_iff v).mp h)
  have hsr : s - r ≠ 0 := sub_ne_zero.mpr (ne_of_gt hrs)
  have hlv : (a + s • v) - (a + r • v) = (s - r) • v := by
    ext <;> simp <;> ring
  have hpu : (a + u • v) - (a + r • v) = (u - r) • v := by
    ext <;> simp <;> ring
  have hd1 : Vec3.dot ((s - r) • v) ((s - r) • v) = (s - r) * (s - r) * Vec3.dot v v := by
    simp only [Vec3.dot, Vec3.smul_x, Vec3.smul_y, Vec3.smul_z]
    ring
  have hd2 : Vec3.dot ((s - r) • v) ((u - r) • v) = (s - r) * (u - r) * Vec3.dot v v := by
    simp only [Vec3.dot, Vec3.smul_x, Vec3.smul_y, Vec3.smul_z]
    ring
  have hne : (s - r) * (s - r) * Vec3.dot v v ≠ 0 :=
    mul_ne_zero (mul_ne_zero hsr hsr) hdvv0
  have ht : (s - r) * (u - r) * Vec3.dot v v / ((s - r) * (s - r) * Vec3.dot v v) =
      (u - r) / (s - r) := by
    field_simp
    ring
  have h0t : 0 ≤ (u - r) / (s - r) := div_nonneg (by linarith) (by linarith)
  have ht1 : (u - r) / (s - r) ≤ 1 := by
    rw [div_le_one (by linarith)]
    linarith
  have hproj : (a + u • v) - ((a + r • v) + ((u - r) / (s - r)) • ((s - r) • v)) = 0 := by
    ext <;> (simp; field_simp; ring)
  simp only [perpDist, hlv, hpu, hd1, hd2]
  rw [if_neg hne, ht, min_eq_right ht1, max_eq_right h0t, hproj]
  simp [vlen]

/-- The scan never leaves the all-zero accumulator when every interior
distance is zero. -/
theorem rdpScan_zero (sq : ℚ → ℚ) (p1 p2 : Vec3) :
    ∀ (l : List (ℕ × Vec3)), (∀ pr ∈ l, perpDist sq p1 p2 pr.2 = 0) →
      rdpScan sq p1 p2 l (0, 0) = (0, 0) := by
  intro l
  induction l with
  | nil => intro _; rfl
  | cons pr rest ih =>
    intro h
    obtain ⟨i, q⟩ := pr
    have h0 : perpDist sq p1 p2 q = 0 := h (i, q) (List.mem_cons_self _ _)
    simp only [rdpScan, h0]
    rw [if_neg (lt_irrefl 0)]
    exact ih (fun pr hpr => h pr (List.mem_cons_of_mem _ hpr))

/-- The scan's accumulated maximum never decreases. -/
theorem rdpScan_fst_le (sq : ℚ → ℚ) (p1 p2 : Vec3) :
    ∀ (l : List (ℕ × Vec3)) (acc : ℚ × ℕ), acc.1 ≤ (rdpScan sq p1 p2 l acc).1 := by
  intro l
  induction l with
  | nil => intro acc; exact le_refl _
  | cons pr rest ih =>
    intro acc
    obtain ⟨i, q⟩ := pr
    obtain ⟨dmax, idx⟩ := acc
    simp only [rdpScan]
    by_cases hlt : dmax < perpDist sq p1 p2 q
    · rw [if_pos hlt]
      exact le_trans (le_of_lt hlt) (ih (perpDist sq p1 p2 q, i))
    · rw [if_neg hlt]
      exact ih (dmax, idx)

/-- The scan result bounds every scanned interior distance from above: it is
the maximum of the interior distances. -/
theorem rdpScan_mem_le (sq : ℚ → ℚ) (p1 p2 : Vec3) :
    ∀ (l : List (ℕ × Vec3)) (acc : ℚ × ℕ) (pr : ℕ × Vec3), pr ∈ l →
      perpDist sq p1 p2 pr.2 ≤ (rdpScan sq p1 p2 l acc).1 := by
  intro l
  induction l with
  | nil => intro acc pr h; exact absurd h (List.not_mem_nil pr)
  | cons hd rest ih =>
    intro acc pr hmem
    obtain ⟨i, q⟩ := hd
    obtain ⟨dmax, idx⟩ := acc
    rcases List.mem_cons.mp hmem with h | h
    · subst h
      simp only [rdpScan]
      by_cases hlt : dmax < perpDist sq p1 p2 (i, q).2
      · rw [if_pos hlt]
        exact rdpScan_fst_le sq p1 p2 rest (perpDist sq p1 p2 (i, q).2, i)
      · rw [if_neg hlt]
        exact le_trans (not_lt.mp hlt) (rdpScan_fst_le sq p1 p2 rest (dmax, idx))
    · simp only [rdpScan]
      by_cases hlt : dmax < perpDist sq p1 p2 q
      · rw [if_pos hlt]
        exact ih (perpDist sq p1 p2 q, i) pr h
      · rw [if_neg hlt]
        exact ih (dmax, idx) pr h

/-- The scan either keeps its initial accumulator or reports an index that
was actually scanned. -/
theorem rdpScan_cases (sq : ℚ → ℚ) (p1 p2 : Vec3) :
    ∀ (l : List (ℕ × Vec3)) (acc : ℚ × ℕ),
      rdpScan sq p1 p2 l acc = acc ∨ (rdpScan sq p1 p2 l acc).2 ∈ l.map Prod.fst := by
  intro l
  induction l with
  | nil => intro acc; exact Or.inl rfl
  | cons hd rest ih =>
    intro acc
    obtain ⟨i, q⟩ := hd
    obtain ⟨dmax, idx⟩ := acc
    simp only [rdpScan, List.map_cons, List.mem_cons]
    by_cases hlt : dmax < perpDist sq p1 p2 q
    · rw [if_pos hlt]
      rcases ih (perpDist sq p1 p2 q, i) with h | h
      · right
        rw [h]
        exact Or.inl rfl
      · right
        exact Or.inr h
    · rw [if_neg hlt]
      rcases ih (dmax, idx) with h | h
      · exact Or.inl h
      · right
        exact Or.inr h

/-- If the split distance is positive, the split index is a genuine interior
index: `1 <= index <= len - 2`. -/
theorem rdpSplit_mem (sq : ℚ → ℚ) (points : List Vec3)
    (hpos : 0 < (rdpSplit sq points).1) :
    1 ≤ (rdpSplit sq points).2 ∧ (rdpSplit sq points).2 < points.length - 1 := by
  rcases rdpScan_cases sq (points.headD 0) (points.getLastD 0)
      ((List.range' 1 (points.length - 2)).map (fun i => (i, points.getD i 0)))
      (0, 0) with h | h
  · exfalso
    have : (rdpSplit sq points).1 = 0 := by
      rw [rdpSplit, h]
    rw [this] at hpos
    exact lt_irrefl 0 hpos
  · rw [map_fst_pairs (fun i => points.getD i 0)] at h
    have hmem : (rdpSplit sq points).2 ∈ List.range' 1 (points.length - 2) := by
      rw [rdpSplit]
      exact h
    have := List.mem_range'_1.mp hmem
    omega

/-- Unfolding of `ramer_douglas_peucker` for lists of three or more points. -/
theorem rdp_step (sq : ℚ → ℚ) (fuel : ℕ) (points : List Vec3) (epsilon : ℚ)
    (h3 : 3 ≤ points.length) :
    ramer_douglas_peucker sq (fuel + 1) points epsilon =
      if epsilon < (rdpSplit sq points).1 then
        match ramer_douglas_peucker sq fuel (points.take ((rdpSplit sq points).2 + 1))
            epsilon,
          ramer_douglas_peucker sq fuel (points.drop (rdpSplit sq points).2) epsilon with
        | some rec1, some rec2 => some (rec1.dropLast ++ rec2)
        | _, _ => none
      else some [points.headD 0, points.getLastD 0] := by
  simp only [ramer_douglas_peucker, rdpSplit]
  rw [if_neg (by omega : ¬ points.length < 3)]

/-- Whenever the split maximum does not exceed epsilon, the whole sub-range
collapses to its two endpoints. -/
theorem rdp_collapse (sq : ℚ → ℚ) (fuel : ℕ) (points : List Vec3) (epsilon : ℚ)
    (h3 : 3 ≤ points.length) (hle : (rdpSplit sq points).1 ≤ epsilon) :
    ramer_douglas_peucker sq (fuel + 1) points epsilon =
      some [points.headD 0, points.getLastD 0] := by
  rw [rdp_step sq fuel points epsilon h3, if_neg (not_lt.mpr hle)]

/-- For `epsilon >= 0` and fuel at least the list length, the recursion
always terminates: each recursive call strictly shrinks the list because the
split index is interior. -/
theorem rdp_terminates (sq : ℚ → ℚ) :
    ∀ (fuel : ℕ) (points : List Vec3) (epsilon : ℚ), 0 ≤ epsilon →
      points.length ≤ fuel →
      ∃ r, ramer_douglas_peucker sq fuel points epsilon = some r := by
  intro fuel
  induction fuel with
  | zero =>
    intro points epsilon _ hlen
    refine ⟨points, ?_⟩
    simp only [ramer_douglas_peucker]
    rw [if_pos (by omega : points.length < 3)]
  | succ fuel ih =>
    intro points epsilon heps hlen
    by_cases hsmall : points.length < 3
    · refine ⟨points, ?_⟩
      simp only [ramer_douglas_peucker]
      rw [if_pos hsmall]
    · by_cases hcase : epsilon < (rdpSplit sq points).1
      · have hidx := rdpSplit_mem sq points (lt_of_le_of_lt heps hcase)
        obtain ⟨r1, hr1⟩ := ih (points.take ((rdpSplit sq points).2 + 1)) epsilon heps
          (by rw [List.length_take]; omega)
        obtain ⟨r2, hr2⟩ := ih (points.drop (rdpSplit sq points).2) epsilon heps
          (by rw [List.length_drop]; omega)
        refine ⟨r1.dropLast ++ r2, ?_⟩
        rw [rdp_step sq fuel points epsilon (by omega), if_pos hcase, hr1, hr2]
      · exact ⟨[points.headD 0, points.getLastD 0],
          rdp_collapse sq fuel points epsilon (by omega) (not_lt.mp hcase)⟩

/-- Element lookup in an evenly indexed polyline. -/
theorem getD_range_map (f : ℕ → Vec3) (n i : ℕ) (h : i < n) :
    ((List.range n).map f).getD i 0 = f i := by
  rw [List.getD_eq_getElem?_getD, List.getElem?_map, List.getElem?_range h]
  rfl

/-- On a strictly monotonic straight-line polyline every interior distance is
zero, so `rdp(points, 0)` collapses to the two endpoints. -/
theorem rdp_line_collapse (a v : Vec3) (t : ℕ → ℚ) (n fuel : ℕ)
    (hv : v ≠ 0) (ht : StrictMono t) (hn : 3 ≤ n) :
    ramer_douglas_peucker ratSqrt (fuel + 1)
      ((List.range n).map (fun i => a + t i • v)) 0 =
      some [a + t 0 • v, a + t (n - 1) • v] := by
  have hlen : ((List.range n).map (fun i => a + t i • v)).length = n := by simp
  have hgetD : ∀ i, i < n →
      ((List.range n).map (fun i => a + t i • v)).getD i 0 = a + t i • v :=
    fun i hi => getD_range_map (fun i => a + t i • v) n i hi
  have hhead : ((List.range n).map (fun i => a + t i • v)).headD 0 = a + t 0 • v := by
    rw [headD_eq_getD, hgetD 0 (by omega)]
  have hlast : ((List.range n).map (fun i => a + t i • v)).getLastD 0 =
      a + t (n - 1) • v := by
    rw [getLastD_eq_getD, hlen, hgetD (n - 1) (by omega)]
  have hsplit : rdpSplit ratSqrt ((List.range n).map (fun i => a + t i • v)) = (0, 0) := by
    rw [rdpSplit, hhead, hlast, hlen]
    apply rdpScan_zero
    intro pr hpr
    obtain ⟨i, hi, rfl⟩ := List.mem_map.mp hpr
    have hi' := List.mem_range'_1.mp hi
    show perpDist ratSqrt (a + t 0 • v) (a + t (n - 1) • v)
      (((List.range n).map (fun i => a + t i • v)).getD i 0) = 0
    rw [hgetD i (by omega)]
    exact perpDist_on_line a v hv (t 0) (t (n - 1)) (t i)
      (ht (by omega)) (ht.monotone (by omega)) (ht.monotone (by omega))
  rw [rdp_collapse ratSqrt fuel _ 0 (by rw [hlen]; omega)
    (by rw [hsplit]), hhead, hlast]

/-- **C8.** `ramer_douglas_peucker` returns lists of fewer than 3 points
unchanged; otherwise the scan computes the maximum point-to-segment distance
of the interior points to the first-last chord (clamped-`t` projection,
plain endpoint distance for a zero-length chord, as embedded in `perpDist`);
if that maximum exceeds epsilon it recurses on `[first..split]` and
`[split..last]` and concatenates dropping the duplicated junction, else it
returns exactly the two endpoints; for `epsilon >= 0` the recursion
terminates (any fuel `>= len` suffices), and on a strictly monotonic
straight-line polyline `rdp(points, 0)` collapses to exactly the two
endpoints. -/
theorem c8_rdp_simplification :
    (∀ (sq : ℚ → ℚ) (fuel : ℕ) (points : List Vec3) (epsilon : ℚ),
        points.length < 3 → ramer_douglas_peucker sq fuel points epsilon = some points)
    ∧ (∀ (sq : ℚ → ℚ) (points : List Vec3) (i : ℕ), 1 ≤ i →
        i < points.length - 1 →
        perpDist sq (points.headD 0) (points.getLastD 0) (points.getD i 0) ≤
          (rdpSplit sq points).1)
    ∧ (∀ (sq : ℚ → ℚ) (fuel : ℕ) (points : List Vec3) (epsilon : ℚ),
        3 ≤ points.length → (rdpSplit sq points).1 ≤ epsilon →
        ramer_douglas_peucker sq (fuel + 1) points epsilon =
          some [points.headD 0, points.getLastD 0])
    ∧ (∀ (sq : ℚ → ℚ) (fuel : ℕ) (points : List Vec3) (epsilon : ℚ),
        3 ≤ points.length → epsilon < (rdpSplit sq points).1 →
        ramer_douglas_peucker sq (fuel + 1) points epsilon =
          match ramer_douglas_peucker sq fuel
              (points.take ((rdpSplit sq points).2 + 1)) epsilon,
            ramer_douglas_peucker sq fuel (points.drop (rdpSplit sq points).2) epsilon
          with
          | some rec1, some rec2 => some (rec1.dropLast ++ rec2)
          | _, _ => none)
    ∧ (∀ (sq : ℚ → ℚ) (points : List Vec3) (epsilon : ℚ) (fuel : ℕ), 0 ≤ epsilon →
        points.length ≤ fuel →
        ∃ r, ramer_douglas_peucker sq fuel points epsilon = some r)
    ∧ (∀ (a v : Vec3) (t : ℕ → ℚ) (n fuel : ℕ), v ≠ 0 → StrictMono t → 3 ≤ n →
        ramer_douglas_peucker ratSqrt (fuel + 1)
          ((List.range n).map (fun i => a + t i • v)) 0 =
          some [a + t 0 • v, a + t (n - 1) • v]) := by
  refine ⟨?_, ?_, ?_, ?_, ?_, ?_⟩
  · intro sq fuel points epsilon h
    cases fuel with
    | zero =>
      simp only [ramer_douglas_peucker]
      rw [if_pos h]
    | succ f =>
      simp only [ramer_douglas_peucker]
      rw [if_pos h]
  · intro sq points i h1 h2
    have hmem : (i, points.getD i 0) ∈
        (List.range' 1 (points.length - 2)).map (fun i => (i, points.getD i 0)) :=
      List.mem_map_of_mem _ (List.mem_range'_1.mpr (by omega))
    exact rdpScan_mem_le sq (points.headD 0) (points.getLastD 0) _ (0, 0)
      (i, points.getD i 0) hmem
  · intro sq fuel points epsilon h3 hle
    exact rdp_collapse sq fuel points epsilon h3 hle
  · intro sq fuel points epsilon h3 hlt
    rw [rdp_step sq fuel points epsilon h3, if_pos hlt]
  · intro sq points epsilon fuel heps hlen
    exact rdp_terminates sq fuel points epsilon heps hlen
  · intro a v t n fuel hv ht hn
    exact rdp_line_collapse a v t n fuel hv ht hn

/-- C8 witness: a 2-point list is returned unchanged, and the collinear
3-point polyline `(0,0,0), (1,0,0), (2,0,0)` (the straight line `i • (1,0,0)`)
collapses at `epsilon = 0` to exactly its two endpoints. -/
theorem c8_witness :
    ramer_douglas_peucker ratSqrt 0 [(⟨0, 0, 0⟩ : Vec3), ⟨7, 7, 7⟩] (-1) =
      some [(⟨0, 0, 0⟩ : Vec3), ⟨7, 7, 7⟩]
    ∧ ramer_douglas_peucker ratSqrt (2 + 1)
        ((List.range 3).map (fun i => (0 : Vec3) + (i : ℚ) • (⟨1, 0, 0⟩ : Vec3))) 0 =
        some [(0 : Vec3) + ((0 : ℕ) : ℚ) • (⟨1, 0, 0⟩ : Vec3),
          (0 : Vec3) + ((3 - 1 : ℕ) : ℚ) • (⟨1, 0, 0⟩ : Vec3)] :=
  ⟨c8_rdp_simplification.1 ratSqrt 0 [⟨0, 0, 0⟩, ⟨7, 7, 7⟩] (-1) (by norm_num),
    c8_rdp_simplification.2.2.2.2.2 0 ⟨1, 0, 0⟩ (fun i => (i : ℚ)) 3 2
      (by intro h; have hx := congrArg Vec3.x h; simp at hx)
      (by intro m k hmk; show (m : ℚ) < (k : ℚ); exact_mod_cast hmk) (by norm_num)⟩

end AttractorBuilder
